import Mathlib

/-!
Verification of AutoScType's structural scanner, reference resolver and
annotation normalizer (src/src/core/type_generator.py).

Text is embedded as `List Char`.  Python string primitives (`split`, `join`,
`strip`, `in`, `replace`, `isdigit`, …) are modelled by executable functions
below, and the `re` patterns the code uses are modelled by a small
backtracking regex engine whose match-preference order (leftmost, greedy /
lazy, alternatives left to right) follows Python's `re` on the constructs
these patterns use.
-/

abbrev Str := List Char

/-- Python `\s` / `str.isspace` for the ASCII texts handled here. -/
def isPySpace (c : Char) : Bool :=
  c = ' ' || c = '\t' || c = '\n' || c = '\r' || c = '\x0b' || c = '\x0c'

/-- Python `\w` for the ASCII texts handled here. -/
def isWordChar (c : Char) : Bool :=
  c.isAlphanum || c = '_'

/-- Python `[a-fA-F0-9]`. -/
def isHexChar (c : Char) : Bool :=
  c.isDigit || ('a' ≤ c && c ≤ 'f') || ('A' ≤ c && c ≤ 'F')

/-- Python `[A-Z]`. -/
def isUpperAZ (c : Char) : Bool :=
  'A' ≤ c && c ≤ 'Z'

/-- Python `[A-Z0-9_]`. -/
def isUpperNum (c : Char) : Bool :=
  isUpperAZ c || c.isDigit || c = '_'

/-- Boolean list-prefix test (`s.startswith(pat)` reads `isPrefixB pat s`). -/
def isPrefixB : Str → Str → Bool
  | [], _ => true
  | _ :: _, [] => false
  | p :: ps, c :: cs => p = c && isPrefixB ps cs

/-- Python substring containment `pat in s`. -/
def containsSub : Str → Str → Bool
  | pat, [] => pat.isEmpty
  | pat, c :: cs => isPrefixB pat (c :: cs) || containsSub pat cs

/-- Python `s.endswith(pat)`. -/
def endsWithB (pat s : Str) : Bool :=
  isPrefixB pat.reverse s.reverse

/-- Python `s.lstrip()` (default whitespace). -/
def lstripPy (s : Str) : Str :=
  s.dropWhile isPySpace

/-- Python `s.rstrip()` (default whitespace). -/
def rstripPy (s : Str) : Str :=
  (lstripPy s.reverse).reverse

/-- Python `s.strip()` (default whitespace). -/
def stripPy (s : Str) : Str :=
  lstripPy (rstripPy s)

/-- Python `s.rstrip(":")`. -/
def rstripColon (s : Str) : Str :=
  ((s.reverse.dropWhile (· = ':'))).reverse

/-- Python `s.split(sep)` for a single-character separator (keeps empties). -/
def splitChar (sep : Char) : Str → List Str
  | [] => [[]]
  | c :: cs =>
    if c = sep then [] :: splitChar sep cs
    else
      match splitChar sep cs with
      | h :: t => (c :: h) :: t
      | [] => [[c]]

/-- Python `sep.join(parts)` for a single-character separator. -/
def joinChar (sep : Char) : List Str → Str
  | [] => []
  | [p] => p
  | p :: ps => p ++ sep :: joinChar sep ps

/-- Python `s.isdigit()` (ASCII digits). -/
def isDigitStr (s : Str) : Bool :=
  !s.isEmpty && s.all Char.isDigit

/-- Python `s.isupper()`: at least one cased character and no lowercase one. -/
def isUpperStrPy (s : Str) : Bool :=
  s.any Char.isAlpha && s.all (fun c => !c.isAlpha || isUpperAZ c)

/-- Python `s.upper()` (ASCII). -/
def upperStr (s : Str) : Str :=
  s.map Char.toUpper

/-- One step of Python `s.replace(pat, rep)`: fuel-driven left-to-right scan,
non-overlapping, continuing after each inserted replacement.  The fuel is
always instantiated with `s.length + 1`, which never runs out because each
step consumes at least one character of `s`. -/
def replaceSubAux (pat rep : Str) : Nat → Str → Str
  | 0, s => s
  | _ + 1, [] => []
  | fuel + 1, c :: cs =>
    if !pat.isEmpty && isPrefixB pat (c :: cs) then
      rep ++ replaceSubAux pat rep fuel ((c :: cs).drop pat.length)
    else
      c :: replaceSubAux pat rep fuel cs

/-- Python `s.replace(pat, rep)` (for the non-empty patterns the code uses). -/
def replaceSub (pat rep s : Str) : Str :=
  replaceSubAux pat rep (s.length + 1) s

/-- Python `int(digits)` on a digit string. -/
def natOfDigits (s : Str) : Nat :=
  s.foldl (fun acc c => 10 * acc + (c.toNat - 48)) 0

/-- List of keyed capture groups of one regex match. -/
abbrev Caps := List (Nat × Str)

/-- Python `m.group(i)` (empty string when the group did not participate;
all groups read by the code always participate). -/
def capGet (caps : Caps) (i : Nat) : Str :=
  ((caps.find? (fun p => p.1 = i)).map (·.2)).getD []

/-- Regex abstract syntax: exactly the constructs appearing in the source's
patterns.  Repetition is restricted to single-character classes, which is all
these patterns use, so matching is structurally recursive. -/
inductive RE where
  | eps : RE
  | lit : Str → RE
  | cls : (Char → Bool) → RE
  | seq : RE → RE → RE
  | alt : RE → RE → RE
  | opt : RE → RE
  | manyG : (Char → Bool) → RE
  | manyL : (Char → Bool) → RE
  | many1G : (Char → Bool) → RE
  | group : Nat → RE → RE

/-- Sequencing of a pattern list. -/
def rseq (l : List RE) : RE :=
  l.foldr RE.seq RE.eps

/-- Literal from a string literal. -/
def rlit (s : String) : RE :=
  RE.lit s.data

/-- All splits `(take k, drop k)` of the maximal `p`-prefix, shortest first
(the preference order of a lazy `p*?`). -/
def splitsAsc (p : Char → Bool) : Str → List (Str × Str)
  | [] => [([], [])]
  | c :: cs =>
    ([], c :: cs) ::
      (if p c then (splitsAsc p cs).map (fun q => (c :: q.1, q.2)) else [])

/-- All ways the pattern can match a prefix of `s`, as
`(consumed, rest, captures)` triples in Python's backtracking preference
order (the head is the match Python reports). -/
def reRun : RE → Str → List (Str × Str × Caps)
  | .eps, s => [([], s, [])]
  | .lit cs, s =>
    if isPrefixB cs s then [(cs, s.drop cs.length, [])] else []
  | .cls p, s =>
    match s with
    | c :: rest => if p c then [([c], rest, [])] else []
    | [] => []
  | .seq a b, s =>
    (reRun a s).flatMap fun t =>
      (reRun b t.2.1).map fun u => (t.1 ++ u.1, u.2.1, t.2.2 ++ u.2.2)
  | .alt a b, s => reRun a s ++ reRun b s
  | .opt a, s => reRun a s ++ [([], s, [])]
  | .manyG p, s => ((splitsAsc p s).map (fun q => (q.1, q.2, ([] : Caps)))).reverse
  | .manyL p, s => (splitsAsc p s).map (fun q => (q.1, q.2, ([] : Caps)))
  | .many1G p, s =>
    (((splitsAsc p s).drop 1).map (fun q => (q.1, q.2, ([] : Caps)))).reverse
  | .group i a, s =>
    (reRun a s).map fun t => (t.1, t.2.1, t.2.2 ++ [(i, t.1)])

/-- Python `re.search`: the preferred match at the leftmost position where
the pattern matches, as `(captures)`; `none` when there is no match. -/
def reSearchAux : Nat → RE → Str → Option Caps
  | 0, _, _ => none
  | _ + 1, r, [] =>
    match reRun r [] with
    | t :: _ => some t.2.2
    | [] => none
  | fuel + 1, r, s =>
    match reRun r s with
    | t :: _ => some t.2.2
    | [] => reSearchAux fuel r (s.drop 1)

/-- Python `re.search` over a string. -/
def reSearch (r : RE) (s : Str) : Option Caps :=
  reSearchAux (s.length + 1) r s

/-- Python `re.finditer`: leftmost, non-overlapping matches. -/
def reFindAux : Nat → RE → Str → List Caps
  | 0, _, _ => []
  | _ + 1, r, [] =>
    match reRun r [] with
    | t :: _ => [t.2.2]
    | [] => []
  | fuel + 1, r, s =>
    match reRun r s with
    | t :: _ =>
      if t.1.isEmpty then t.2.2 :: reFindAux fuel r (s.drop 1)
      else t.2.2 :: reFindAux fuel r t.2.1
    | [] => reFindAux fuel r (s.drop 1)

/-- Python `re.finditer` over a string. -/
def reFindIter (r : RE) (s : Str) : List Caps :=
  reFindAux (s.length + 1) r s

/-!  The source's regex patterns (type_generator.py, `_generate_type_annotations`). -/

/-- Visibility qualifier alternation `(?:public|private|internal)`. -/
def visRE : RE :=
  RE.alt (rlit "public") (RE.alt (rlit "private") (rlit "internal"))

/-- `(uint|int|address)` (group 1). -/
def primTypeRE : RE :=
  RE.group 1 (RE.alt (rlit "uint") (RE.alt (rlit "int") (rlit "address")))

/-- `contract\s+(\w+)` — contract-name scan. -/
def contractRE : RE :=
  rseq [rlit "contract", .many1G isPySpace, .group 1 (.many1G isWordChar)]

/-- `interface\s+(\w+)`. -/
def interfaceRE : RE :=
  rseq [rlit "interface", .many1G isPySpace, .group 1 (.many1G isWordChar)]

/-- `(uint|int|address)(?:\d*)?(?:\s+(?:public|private|internal))?\s+(\w+)\s*;`
— state-variable declarations (also reused for struct fields). -/
def variablesRE : RE :=
  rseq [primTypeRE, .manyG Char.isDigit,
        .opt (rseq [.many1G isPySpace, visRE]),
        .many1G isPySpace, .group 2 (.many1G isWordChar),
        .manyG isPySpace, rlit ";"]

/-- `function\s+(\w+)\s*\((.*?)\)` — function declarations (no DOTALL: the
lazy dot excludes newlines). -/
def functionsRE : RE :=
  rseq [rlit "function", .many1G isPySpace, .group 1 (.many1G isWordChar),
        .manyG isPySpace, rlit "(",
        .group 2 (.manyL (fun c => c ≠ '\n')), rlit ")"]

/-- `(uint|int|address)(?:\d*)?(?:\s+(?:public|private|internal))?\s*\[\s*\]\s+(\w+)\s*;`
— array declarations. -/
def arraysRE : RE :=
  rseq [primTypeRE, .manyG Char.isDigit,
        .opt (rseq [.many1G isPySpace, visRE]),
        .manyG isPySpace, rlit "[", .manyG isPySpace, rlit "]",
        .many1G isPySpace, .group 2 (.many1G isWordChar),
        .manyG isPySpace, rlit ";"]

/-- `struct\s+(\w+)\s*\{([^}]*)\}` — struct declarations. -/
def structsRE : RE :=
  rseq [rlit "struct", .many1G isPySpace, .group 1 (.many1G isWordChar),
        .manyG isPySpace, rlit "\x7b", .group 2 (.manyG (· ≠ '}')), rlit "\x7d"]

/-- `(\w+)(?:\s+(?:public|private|internal))?\s+(\w+)\s*=\s*(?:new\s+)?(\w+)\s*\(`
— direct contract instantiations. -/
def directInstRE : RE :=
  rseq [.group 1 (.many1G isWordChar),
        .opt (rseq [.many1G isPySpace, visRE]),
        .many1G isPySpace, .group 2 (.many1G isWordChar),
        .manyG isPySpace, rlit "=", .manyG isPySpace,
        .opt (rseq [rlit "new", .many1G isPySpace]),
        .group 3 (.many1G isWordChar), .manyG isPySpace, rlit "("]

/-- `(\w+)\s*=\s*(?:new\s+)?(\w+)\s*\(` — variable assignments. -/
def varAssignRE : RE :=
  rseq [.group 1 (.many1G isWordChar),
        .manyG isPySpace, rlit "=", .manyG isPySpace,
        .opt (rseq [rlit "new", .many1G isPySpace]),
        .group 2 (.many1G isWordChar), .manyG isPySpace, rlit "("]

/-- `(0x[a-fA-F0-9]+|[a-zA-Z0-9_]+)` — address literal or identifier. -/
def addrOrIdentRE (i : Nat) : RE :=
  RE.group i (RE.alt (rseq [rlit "0x", .many1G isHexChar])
                     (RE.many1G isWordChar))

/-- `(\w+)\s*\(\s*(?:address\()?(0x[a-fA-F0-9]+|[a-zA-Z0-9_]+)\s*\)`
— explicit interface instantiations / casts. -/
def interfaceCallsRE : RE :=
  rseq [.group 1 (.many1G isWordChar), .manyG isPySpace, rlit "(",
        .manyG isPySpace, .opt (rlit "address("), addrOrIdentRE 2,
        .manyG isPySpace, rlit ")"]

/-- `address(?:\s+(?:public|private|internal))?\s+([A-Z][A-Z0-9_]+)\s*;`
— uppercase-named address variables. -/
def addressVarsRE : RE :=
  rseq [rlit "address", .opt (rseq [.many1G isPySpace, visRE]),
        .many1G isPySpace,
        .group 1 (.seq (.cls isUpperAZ) (.many1G isUpperNum)),
        .manyG isPySpace, rlit ";"]

/-- `(\w+)\.(\w+)\s*\(` — direct member calls. -/
def directCallsRE : RE :=
  rseq [.group 1 (.many1G isWordChar), rlit ".",
        .group 2 (.many1G isWordChar), .manyG isPySpace, rlit "("]

/-- `(\w+)\s*\(\s*(?:address\()?(0x[a-fA-F0-9]+|[a-zA-Z0-9_]+)\s*\)\s*\.\s*(\w+)\s*\(`
— interface-cast method calls. -/
def interfaceMethodCallsRE : RE :=
  rseq [.group 1 (.many1G isWordChar), .manyG isPySpace, rlit "(",
        .manyG isPySpace, .opt (rlit "address("), addrOrIdentRE 2,
        .manyG isPySpace, rlit ")", .manyG isPySpace, rlit ".",
        .manyG isPySpace, .group 3 (.many1G isWordChar),
        .manyG isPySpace, rlit "("]

/-- `(\w+)\.(\w+)\s*\(\s*(\w+)` — library-style calls. -/
def libraryCallsRE : RE :=
  rseq [.group 1 (.many1G isWordChar), rlit ".",
        .group 2 (.many1G isWordChar), .manyG isPySpace, rlit "(",
        .manyG isPySpace, .group 3 (.many1G isWordChar)]

/-- `(\w+)\.call\s*(?:\{\s*value\s*:\s*[^}]+\s*\})?\s*\(\s*abi\.encodeWithSignature\s*\(\s*["'](\w+)\(`
— low-level raw calls. -/
def lowLevelCallsRE : RE :=
  rseq [.group 1 (.many1G isWordChar), rlit ".call", .manyG isPySpace,
        .opt (rseq [rlit "\x7b", .manyG isPySpace, rlit "value",
                    .manyG isPySpace, rlit ":", .manyG isPySpace,
                    .many1G (· ≠ '}'), .manyG isPySpace, rlit "\x7d"]),
        .manyG isPySpace, rlit "(", .manyG isPySpace,
        rlit "abi.encodeWithSignature", .manyG isPySpace, rlit "(",
        .manyG isPySpace, .cls (fun c => c = '"' || c = '\''),
        .group 2 (.many1G isWordChar), rlit "("]

/-- The static table of well-known token-standard method names, in the
source's insertion order. -/
def commonInterfaceMethods : List (Str × List Str) :=
  [("transfer".data, ["IERC20".data, "ERC20".data]),
   ("transferFrom".data, ["IERC20".data, "ERC20".data]),
   ("approve".data, ["IERC20".data, "ERC20".data]),
   ("allowance".data, ["IERC20".data, "ERC20".data]),
   ("balanceOf".data, ["IERC20".data, "ERC20".data, "IERC721".data, "ERC721".data]),
   ("mint".data, ["IERC20".data, "ERC20".data, "IERC721".data, "ERC721".data]),
   ("burn".data, ["IERC20".data, "ERC20".data, "IERC721".data, "ERC721".data]),
   ("totalSupply".data, ["IERC20".data, "ERC20".data]),
   ("name".data, ["IERC20".data, "ERC20".data, "IERC721".data, "ERC721".data]),
   ("symbol".data, ["IERC20".data, "ERC20".data, "IERC721".data, "ERC721".data]),
   ("decimals".data, ["IERC20".data, "ERC20".data]),
   ("ownerOf".data, ["IERC721".data, "ERC721".data]),
   ("safeTransferFrom".data, ["IERC721".data, "ERC721".data]),
   ("getApproved".data, ["IERC721".data, "ERC721".data]),
   ("isApprovedForAll".data, ["IERC721".data, "ERC721".data]),
   ("setApprovalForAll".data, ["IERC721".data, "ERC721".data])]

/-- Alternation over a pattern list, alternatives tried left to right. -/
def raltList : List RE → RE
  | [] => RE.eps
  | [a] => a
  | a :: rest => RE.alt a (raltList rest)

/-- `function\s+(transfer|transferFrom|…)\s*\(` — possible token-standard
function declarations (alternatives in the dict's key order). -/
def interfaceMethodMarkersRE : RE :=
  rseq [rlit "function", .many1G isPySpace,
        .group 1 (raltList (commonInterfaceMethods.map (fun p => RE.lit p.1))),
        .manyG isPySpace, rlit "("]

/-- `interface\s+{iface}\s*\{([^}]*)\}` — an interface's own body. -/
def interfaceBodyRE (iface : Str) : RE :=
  rseq [rlit "interface", .many1G isPySpace, .lit iface,
        .manyG isPySpace, rlit "\x7b", .group 1 (.manyG (· ≠ '}')), rlit "\x7d"]

/-- `function\s+(\w+)\s*\(` — function names inside an interface body. -/
def interfaceFunctionsRE : RE :=
  rseq [rlit "function", .many1G isPySpace, .group 1 (.many1G isWordChar),
        .manyG isPySpace, rlit "("]

/-- `function\s+{name}\s*\((.*?)\)(?:.*?)(?:\{|;)` with `re.DOTALL`
— the function-scoped parameter-text search. -/
def funcPatternRE (name : Str) : RE :=
  rseq [rlit "function", .many1G isPySpace, .lit name,
        .manyG isPySpace, rlit "(", .group 1 (.manyL (fun _ => true)),
        rlit ")", .manyL (fun _ => true), .alt (rlit "\x7b") (rlit ";")]

/-- `(\w+(?:\[\])?)(?:\s+(?:memory|storage|calldata))?\s+(\w+)`
— one typed parameter. -/
def paramRE : RE :=
  rseq [.group 1 (.seq (.many1G isWordChar) (.opt (rlit "[]"))),
        .opt (rseq [.many1G isPySpace,
                    .alt (rlit "memory") (.alt (rlit "storage") (rlit "calldata"))]),
        .many1G isPySpace, .group 2 (.many1G isWordChar)]

/-- `function\s+{name}\s*\(.*?\).*?returns\s*\(\s*((?:\w+(?:\[\])?)(?:\s+(?:memory|storage|calldata))?)\s+(\w+)\s*\)`
with `re.DOTALL` — the function-scoped return-clause search. -/
def returnPatternRE (name : Str) : RE :=
  rseq [rlit "function", .many1G isPySpace, .lit name,
        .manyG isPySpace, rlit "(", .manyL (fun _ => true), rlit ")",
        .manyL (fun _ => true), rlit "returns", .manyG isPySpace, rlit "(",
        .manyG isPySpace,
        .group 1 (rseq [.many1G isWordChar, .opt (rlit "[]"),
                        .opt (rseq [.many1G isPySpace,
                                    .alt (rlit "memory")
                                      (.alt (rlit "storage") (rlit "calldata"))])]),
        .many1G isPySpace, .group 2 (.many1G isWordChar),
        .manyG isPySpace, rlit ")"]

/-- `1e(\d+)` — scientific-notation scaling factors. -/
def sciRE : RE :=
  .seq (rlit "1e") (.group 1 (.many1G Char.isDigit))

/-!  SourceScanner: extraction of structural elements (lines 187–213, 509–568). -/

/-- First `contract\s+(\w+)` match: the contract name (line 187). -/
def contractNameOf (content : Str) : Option Str :=
  (reSearch contractRE content).map (fun caps => capGet caps 1)

/-- State-variable declarations as `(type, name)` pairs (line 207). -/
def variablesOf (content : Str) : List (Str × Str) :=
  (reFindIter variablesRE content).map (fun m => (capGet m 1, capGet m 2))

/-- Function declarations as `(name, raw parameter text)` pairs (line 209). -/
def functionsOf (content : Str) : List (Str × Str) :=
  (reFindIter functionsRE content).map (fun m => (capGet m 1, capGet m 2))

/-- Array declarations as `(type, name)` pairs (line 211). -/
def arraysOf (content : Str) : List (Str × Str) :=
  (reFindIter arraysRE content).map (fun m => (capGet m 1, capGet m 2))

/-- Struct declarations as `(name, fields)` with fields scanned inside the
captured body by the state-variable pattern (lines 213, 509–524). -/
def structsOf (content : Str) : List (Str × List (Str × Str)) :=
  (reFindIter structsRE content).map
    (fun m => (capGet m 1,
               (reFindIter variablesRE (capGet m 2)).map
                 (fun f => (capGet f 1, capGet f 2))))

/-- Declared interface names (line 219). -/
def interfacesOf (content : Str) : List Str :=
  (reFindIter interfaceRE content).map (fun m => capGet m 1)

/-- Declared contract names (line 220). -/
def contractsOf (content : Str) : List Str :=
  (reFindIter contractRE content).map (fun m => capGet m 1)

/-- The function-scoped parameter re-extraction (lines 536–549): search the
function's own parameter text, then scan it for typed parameters. -/
def funcParamsOf (content fname : Str) : List (Str × Str) :=
  match reSearch (funcPatternRE fname) content with
  | some caps =>
    (reFindIter paramRE (capGet caps 1)).map (fun m => (capGet m 1, capGet m 2))
  | none => []

/-- The function-scoped return-clause search (lines 557–564). -/
def funcReturnOf (content fname : Str) : Option (Str × Str) :=
  (reSearch (returnPatternRE fname) content).map
    (fun caps => (capGet caps 1, capGet caps 2))

/-!  Python dict / set model: insertion-ordered association lists.  `pyInsert`
overwrites in place like `d[k] = v`; the method collections of the
external-call table are Python `set`s, modelled as duplicate-free lists in
insertion order (only membership is meaningful). -/

/-- Python `d.get(k)` / `k in d`: the value of the first (only) entry with
this key. -/
def pyLookup {V : Type} : List (Str × V) → Str → Option V
  | [], _ => none
  | p :: ps, k => if p.1 = k then some p.2 else pyLookup ps k

/-- Python `k in d`. -/
def hasKey {V : Type} (d : List (Str × V)) (k : Str) : Bool :=
  (pyLookup d k).isSome

/-- Python `d[k] = v`. -/
def pyInsert {V : Type} (d : List (Str × V)) (k : Str) (v : V) : List (Str × V) :=
  if hasKey d k then d.map (fun p => if p.1 = k then (k, v) else p)
  else d ++ [(k, v)]

/-!  ReferenceResolver: the six binding heuristics (lines 253–340). -/

/-- The alias table: `interface_to_var` / `var_to_interface` of the source. -/
structure AliasState where
  interface_to_var : List (Str × Str)
  var_to_interface : List (Str × Str)

/-- The naming test `name.startswith("I") and len(name) > 1 and name[1].isupper()`. -/
def isInterfaceName (s : Str) : Bool :=
  isPrefixB "I".data s && decide (1 < s.length) && isUpperAZ (s.getD 1 ' ')

/-- Direct instantiations as `(type, var, instantiated type)` (line 236). -/
def directInstantiationsOf (content : Str) : List (Str × Str × Str) :=
  (reFindIter directInstRE content).map
    (fun m => (capGet m 1, capGet m 2, capGet m 3))

/-- Variable assignments as `(var, instantiated type)` (line 239). -/
def varAssignmentsOf (content : Str) : List (Str × Str) :=
  (reFindIter varAssignRE content).map (fun m => (capGet m 1, capGet m 2))

/-- Explicit interface instantiations; only group 1 is consumed (line 242). -/
def interfaceCallsOf (content : Str) : List Str :=
  (reFindIter interfaceCallsRE content).map (fun m => capGet m 1)

/-- Uppercase-named address variables (line 251). -/
def addressVarsOf (content : Str) : List Str :=
  (reFindIter addressVarsRE content).map (fun m => capGet m 1)

/-- Heuristic 1 step — one direct instantiation (lines 258–274).  The
declared-type branch writes unconditionally; the instantiated-type branch
only fires when the variable is still unbound. -/
def h1Step (st : AliasState) (m : Str × Str × Str) : AliasState :=
  let tn := m.1
  let vn := m.2.1
  let it := m.2.2
  let st1 :=
    if isInterfaceName tn then
      { interface_to_var := pyInsert st.interface_to_var tn vn,
        var_to_interface := pyInsert st.var_to_interface vn tn }
    else st
  if isInterfaceName it && !(hasKey st1.var_to_interface vn) then
    { interface_to_var := pyInsert st1.interface_to_var it vn,
      var_to_interface := pyInsert st1.var_to_interface vn it }
  else st1

/-- Heuristic 2 step — one plain assignment (lines 277–286). -/
def h2Step (st : AliasState) (m : Str × Str) : AliasState :=
  if isInterfaceName m.2 && !(hasKey st.var_to_interface m.1) then
    { interface_to_var := pyInsert st.interface_to_var m.2 m.1,
      var_to_interface := pyInsert st.var_to_interface m.1 m.2 }
  else st

/-- Heuristic 3 step — one interface call (lines 289–301): synthesizes the
variable name `iface[1:].upper()` and fills only when both sides are unset. -/
def h3Step (st : AliasState) (iface : Str) : AliasState :=
  if isInterfaceName iface then
    let vn := upperStr (iface.drop 1)
    if !(hasKey st.var_to_interface vn) && !(hasKey st.interface_to_var iface) then
      { interface_to_var := pyInsert st.interface_to_var iface vn,
        var_to_interface := pyInsert st.var_to_interface vn iface }
    else st
  else st

/-- Heuristic 4 step — one uppercase address variable (lines 303–315):
matches the first interface whose name minus the leading `I` upper-cases to
the variable name, and writes unconditionally. -/
def h4Step (interfaces : List Str) (st : AliasState) (vn : Str) : AliasState :=
  if isUpperStrPy vn then
    match interfaces.find?
        (fun iface => isPrefixB "I".data iface && decide (upperStr (iface.drop 1) = vn)) with
    | some iface =>
      { interface_to_var := pyInsert st.interface_to_var iface vn,
        var_to_interface := pyInsert st.var_to_interface vn iface }
    | none => st
  else st

/-- Heuristic 5 step — interface/contract same-base-name correlation for one
interface (lines 317–330). -/
def h5Step (contracts : List Str) (st : AliasState) (iface : Str) : AliasState :=
  if isPrefixB "I".data iface && decide (1 < iface.length) then
    let base := iface.drop 1
    contracts.foldl
      (fun st c =>
        if c = base then
          let vn := upperStr base
          if !(hasKey st.var_to_interface vn) then
            { interface_to_var := pyInsert st.interface_to_var iface vn,
              var_to_interface := pyInsert st.var_to_interface vn iface }
          else st
        else st)
      st
  else st

/-- Heuristic 6 step — fallback default mapping for one interface
(lines 332–340): only interfaces named `I…` with more than one character
receive the synthesized variable name. -/
def h6Step (st : AliasState) (iface : Str) : AliasState :=
  if !(hasKey st.interface_to_var iface) then
    if isPrefixB "I".data iface && decide (1 < iface.length) then
      let vn := upperStr (iface.drop 1)
      { interface_to_var := pyInsert st.interface_to_var iface vn,
        var_to_interface := pyInsert st.var_to_interface vn iface }
    else st
  else st

/-- The alias table after heuristics 1–3. -/
def aliasStateAfterH3 (content : Str) : AliasState :=
  (interfaceCallsOf content).foldl h3Step
    ((varAssignmentsOf content).foldl h2Step
      ((directInstantiationsOf content).foldl h1Step ⟨[], []⟩))

/-- The final alias table after all six heuristics (lines 253–340). -/
def resolveAliases (content : Str) : AliasState :=
  let ifaces := interfacesOf content
  let st := aliasStateAfterH3 content
  let st := (addressVarsOf content).foldl (h4Step ifaces) st
  let st := ifaces.foldl (h5Step (contractsOf content)) st
  ifaces.foldl h6Step st

/-!  ReferenceResolver: external-call discovery (lines 344–479). -/

/-- The external-call table `ext_calls`. -/
abbrev ExtCalls := List (Str × List Str)

/-- `ext_calls.setdefault(k, set()).add(m)` (lines 395–397 and analogues). -/
def extAdd (d : ExtCalls) (k m : Str) : ExtCalls :=
  match pyLookup d k with
  | some s => pyInsert d k (if s.contains m then s else s ++ [m])
  | none => d ++ [(k, [m])]

/-- Direct member calls as `(object, method)` (line 345). -/
def directCallsOf (content : Str) : List (Str × Str) :=
  (reFindIter directCallsRE content).map (fun m => (capGet m 1, capGet m 2))

/-- Interface-cast method calls as `(interface type, method)`; group 2 (the
address argument) is not consumed by the loop (line 348). -/
def interfaceMethodCallsOf (content : Str) : List (Str × Str) :=
  (reFindIter interfaceMethodCallsRE content).map
    (fun m => (capGet m 1, capGet m 3))

/-- Library-style calls as `(library, method, first argument)` (line 351). -/
def libraryCallsOf (content : Str) : List (Str × Str × Str) :=
  (reFindIter libraryCallsRE content).map
    (fun m => (capGet m 1, capGet m 2, capGet m 3))

/-- Low-level raw calls as `(address variable, method)` (line 354). -/
def lowLevelCallsOf (content : Str) : List (Str × Str) :=
  (reFindIter lowLevelCallsRE content).map (fun m => (capGet m 1, capGet m 2))

/-- Declared token-standard method names (line 380). -/
def interfaceMethodMarkersOf (content : Str) : List Str :=
  (reFindIter interfaceMethodMarkersRE content).map (fun m => capGet m 1)

/-- Built-in pseudo-objects excluded from direct-call discovery (line 391). -/
def nonContractObjects : List Str :=
  ["this".data, "msg".data, "block".data, "tx".data, "abi".data,
   "address".data, "type".data]

/-- Library objects excluded from library-call discovery (line 425). -/
def commonLibraryObjects : List Str :=
  ["abi".data, "string".data, "bytes".data, "uint".data, "int".data,
   "address".data]

/-- Direct-call loop step (lines 386–398). -/
def directCallsStep (d : ExtCalls) (m : Str × Str) : ExtCalls :=
  if nonContractObjects.contains m.1 then d else extAdd d m.1 m.2

/-- Interface-cast call loop step (lines 401–416): resolves the interface
through the alias table when bound, else uses the interface name itself. -/
def interfaceMethodCallsStep (i2v : List (Str × Str)) (d : ExtCalls)
    (m : Str × Str) : ExtCalls :=
  let cv := (pyLookup i2v m.1).getD m.1
  extAdd d cv m.2

/-- Library-call loop step (lines 419–432). -/
def libraryCallsStep (d : ExtCalls) (m : Str × Str × Str) : ExtCalls :=
  if commonLibraryObjects.contains m.1 then d else extAdd d m.1 m.2.1

/-- Low-level call loop step (lines 435–443). -/
def lowLevelCallsStep (d : ExtCalls) (m : Str × Str) : ExtCalls :=
  extAdd d m.1 m.2

/-- Token-standard marker loop step (lines 446–458): for each canonical
interface of the method, add the call on that interface's bound variable. -/
def markersStep (i2v : List (Str × Str)) (d : ExtCalls) (methodName : Str) :
    ExtCalls :=
  (((commonInterfaceMethods.find? (fun p => decide (p.1 = methodName))).map
      (·.2)).getD []).foldl
    (fun d iface =>
      match pyLookup i2v iface with
      | some cv => extAdd d cv methodName
      | none => d)
    d

/-- Interface-body scan step (lines 461–479): add every function declared
inside a bound interface's body as a call on its bound variable. -/
def interfaceDefinedStep (content : Str) (i2v : List (Str × Str))
    (d : ExtCalls) (iface : Str) : ExtCalls :=
  match pyLookup i2v iface with
  | some vn =>
    match reSearch (interfaceBodyRE iface) content with
    | some caps =>
      (reFindIter interfaceFunctionsRE (capGet caps 1)).foldl
        (fun d m => extAdd d vn (capGet m 1)) d
    | none => d
  | none => d

/-- The full external-call table of one source text (lines 383–479), built
on top of the resolved alias table. -/
def extCallsOf (content : Str) : ExtCalls :=
  let i2v := (resolveAliases content).interface_to_var
  let d := (directCallsOf content).foldl directCallsStep ([] : ExtCalls)
  let d := (interfaceMethodCallsOf content).foldl (interfaceMethodCallsStep i2v) d
  let d := (libraryCallsOf content).foldl libraryCallsStep d
  let d := (lowLevelCallsOf content).foldl lowLevelCallsStep d
  let d := (interfaceMethodMarkersOf content).foldl (markersStep i2v) d
  (interfacesOf content).foldl (interfaceDefinedStep content i2v) d

/-!  AnnotationNormalizer: `_process_annotation_response` (lines 839–978) and
the boundary-failure fallback of `make_api_call` (lines 806–813). -/

/-- The canonical header line `[*c], <contractName>`. -/
def headerLine (contractName : Str) : Str :=
  "[*c], ".data ++ contractName

/-- The minimal valid document: header line followed by a blank line. -/
def minimalDoc (contractName : Str) : Str :=
  headerLine contractName ++ "\n\n".data

/-- The `[sefa]` repair of the financial variant (lines 871–879): escape
unescaped braces part by part and insert the undefined sentinel when the
part carries no financial-type prefix. -/
def sefaFinFixLine (line : Str) : Str :=
  joinChar ','
    ((splitChar ',' line).map (fun part =>
      if containsSub "\x7b".data part && !(containsSub "\x7b\x7b".data part)
          && !(containsSub "f:".data part) then
        let part := replaceSub "\x7d".data "\x7d\x7d".data
          (replaceSub "\x7b".data "\x7b\x7b".data part)
        if !(containsSub "f:".data part) then
          replaceSub "\x7d\x7d".data ", f:-1\x7d\x7d".data part
        else part
      else part))

/-- One line of the financial tag/suffix repair (lines 853–886): the four
sequential fixes for `[t],`, `[tref],`, `[sefa]` and truncated `f:` lines. -/
def finFixLine (line : Str) : Str :=
  let line :=
    if containsSub "[t],".data line && !(containsSub "f:".data line)
        && !(endsWithB "f:".data (stripPy line)) then
      let parts := splitChar ',' line
      if isDigitStr (stripPy (parts.getLastD [])) then
        joinChar ',' (parts.dropLast ++ [" f:".data ++ stripPy (parts.getLastD [])])
      else line
    else line
  let line :=
    if containsSub "[tref],".data line && !(containsSub "f:".data line) then
      let parts := splitChar ',' line
      if decide (3 ≤ parts.length) && isDigitStr (stripPy (parts.getLastD [])) then
        joinChar ',' (parts.dropLast ++ [" f:".data ++ stripPy (parts.getLastD [])])
      else line
    else line
  let line :=
    if containsSub "[sefa]".data line then sefaFinFixLine line else line
  if containsSub "f:".data line && endsWithB "f:".data (stripPy line) then
    rstripColon line ++ ":-1".data
  else line

/-- Whether a line names a skip candidate (line 899): the three hardcoded
method names, or any of the contract's own function names, as substrings. -/
def skipNameHit (functionNames : List Str) (line : Str) : Bool :=
  containsSub "addToPosition".data line || containsSub "withdraw".data line
    || containsSub "deposit".data line
    || functionNames.any (fun f => containsSub f line)

/-- The financial skip-section re-tagging scan (lines 890–910), carrying the
original previous line (`lines[i-1]`; `none` at index 0) and the
`in_skip_section` flag. -/
def finSkipAux (functionNames : List Str) :
    Option Str → Bool → List Str → List Str
  | _, _, [] => []
  | prev, inSkip, line :: rest =>
    if !(stripPy line).isEmpty && !(isPrefixB "[".data line) && !inSkip
        && (match prev with
            | some p => !(isPrefixB "[xf]".data p)
            | none => false)
        && skipNameHit functionNames line then
      ("[xf], ".data ++ stripPy line) ::
        finSkipAux functionNames (some line) true rest
    else
      let inSkip1 :=
        if isPrefixB "[".data line && !(isPrefixB "[xf]".data line) then false
        else inSkip
      line :: finSkipAux functionNames (some line) inSkip1 rest

/-- The token-variant `[xf]` strip (lines 912–930): `[xf],` lines lose their
tag, a blank line is inserted when a skip section starts, and a blank line
after a non-blank output line ends the section.  The accumulator is the
processed list in reverse (its head is `processed[-1]`). -/
def xfStripAux (accRev : List Str) (skipSection : Bool) :
    List Str → List Str
  | [] => accRev.reverse
  | line :: rest =>
    if isPrefixB "[xf],".data line then
      let functionName := stripPy ((splitChar ',' line).getD 1 [])
      if !skipSection then xfStripAux (functionName :: [] :: accRev) true rest
      else xfStripAux (functionName :: accRev) true rest
    else
      let skipSection1 :=
        if (stripPy line).isEmpty && !accRev.isEmpty
            && !(stripPy (accRev.headD [])).isEmpty then false
        else skipSection
      xfStripAux (line :: accRev) skipSection1 rest

/-- One comma part of the scientific-notation rewrite (lines 940–950):
`re.search(r"1e(\d+)")`, then replace every occurrence of the literal
`1e<int(digits)>` by the decimal expansion `str(10**exp)`. -/
def sciFixPart (part : Str) : Str :=
  if containsSub "1e".data part then
    match reSearch sciRE part with
    | some caps =>
      let exp := natOfDigits (capGet caps 1)
      replaceSub ("1e".data ++ (Nat.repr exp).data) (Nat.repr (10 ^ exp)).data part
    | none => part
  else part

/-- One line of the token-variant scientific-notation rewrite (lines
935–953): only lines carrying a `[t],`, `[ta],` or `[tref],` tag are
touched. -/
def sciFixLine (line : Str) : Str :=
  if containsSub "1e".data line
      && (containsSub "[t],".data line || containsSub "[ta],".data line
          || containsSub "[tref],".data line) then
    joinChar ',' ((splitChar ',' line).map sciFixPart)
  else line

/-- One line of the final brace-escaping pass (lines 956–968). -/
def bracePassLine (line : Str) : Str :=
  if containsSub "[sefa]".data line then
    joinChar ','
      ((splitChar ',' line).map (fun part =>
        if containsSub "\x7b".data part && !(containsSub "\x7b\x7b".data part) then
          replaceSub "\x7d".data "\x7d\x7d".data (replaceSub "\x7b".data "\x7b\x7b".data part)
        else part))
  else line

/-- `_process_annotation_response` (lines 839–970): header repair, then the
variant-specific passes, then brace escaping.  `functionNames` is the list
of scanned function names of `contract_data["functions"]`. -/
def processAnnotationResponse (response contractName : Str)
    (functionNames : List Str) (isFinancial : Bool) : Str :=
  let response :=
    if !(containsSub (headerLine contractName) response) then
      headerLine contractName ++ "\n\n".data ++ lstripPy response
    else response
  let response :=
    if isFinancial then
      let response := joinChar '\n' ((splitChar '\n' response).map finFixLine)
      joinChar '\n'
        (finSkipAux functionNames none false (splitChar '\n' response))
    else
      let response := joinChar '\n' (xfStripAux [] false (splitChar '\n' response))
      joinChar '\n' ((splitChar '\n' response).map sciFixLine)
  joinChar '\n' ((splitChar '\n' response).map bracePassLine)

/-- `make_api_call` (lines 806–813): a missing or empty collaborator
response skips processing and yields the minimal valid document. -/
def makeApiCall (contractName : Str) (functionNames : List Str)
    (isFinancial : Bool) (response : Option Str) : Str :=
  match response with
  | some r =>
    if !r.isEmpty then
      processAnnotationResponse r contractName functionNames isFinancial
    else minimalDoc contractName
  | none => minimalDoc contractName

/-- The scanned function names fed to the skip-name test. -/
def functionNamesOf (content : Str) : List Str :=
  (functionsOf content).map (·.1)

/-- The no-client fallback files (lines 592–598): token file = header plus
blank line, financial file = empty string. -/
def noClientOutputs (contractName : Str) : Str × Str :=
  (headerLine contractName ++ "\n\n".data, [])

set_option maxRecDepth 100000

/-!  Concrete inputs used by the claim theorems. -/

/-- Scenario A source (spec §8). -/
def vaultSrc : Str :=
  ("contract Vault { uint256 public totalDeposits; function deposit(uint256 amount) external {} }" : String).data

/-- Scenario C source: `PAIRS` bound to `IPairsContract` by heuristic 1, one
direct call and one interface-cast call. -/
def scenarioCSrc : Str :=
  ("contract C \x7b\ninterface IPairsContract \x7b \x7d\nIPairsContract PAIRS = IPairsContract(a);\nfunction f() \x7b PAIRS.balanceOf(x); IPairsContract(addr).approve(y); \x7d\n\x7d" : String).data

/-- A source whose heuristic-1 binding `IFoo ↦ x` collides with an
uppercase address variable `FOO` processed by heuristic 4. -/
def h4OverwriteSrc : Str :=
  ("contract C \x7b\ninterface IFoo \x7b \x7d\nIFoo x = IFoo(addr);\naddress FOO;\n\x7d" : String).data

/-- A source declaring an interface whose name does not start with `I`. -/
def plainIfaceSrc : Str :=
  ("contract C { }\ninterface Foo { }" : String).data

/-- A token-variant candidate whose tagged line holds two distinct
scientific literals in one comma field. -/
def nonIdemDoc : Str :=
  ("[*c], C\n[t], x, 1e18 1e6" : String).data

/-- A candidate containing the header line, but not as its first line. -/
def headerNotFirstDoc : Str :=
  ("junk\n[*c], C" : String).data

/-- A financial candidate with a two-field array-tag line whose trailing
token is a bare integer. -/
def trefShortDoc : Str :=
  ("[*c], C\n[tref], 5" : String).data

/-- A token-variant candidate with two distinct scientific literals in one
comma field of a plain-tag line. -/
def sciTwoLitDoc : Str :=
  ("[*c], D\n[t], y, 1e18 1e6" : String).data

/-- A financial candidate with an untagged line mentioning `withdraw`. -/
def withdrawDoc : Str :=
  ("[*c], C\n\nxx withdraw yy" : String).data

/-- The first non-blank line of a document (the object of spec §8's header
property). -/
def firstNonBlankLine (doc : Str) : Option Str :=
  (splitChar '\n' doc).find? (fun l => !(stripPy l).isEmpty)

/-- C1: the five-pass repair is not idempotent.  On `nonIdemDoc` the token
normalizer rewrites only the first scientific literal of the comma field
(`1e18`), and a second application rewrites the surviving `1e6`, so
`normalize (normalize d) ≠ normalize d`. -/
theorem c1_normalizer_not_idempotent :
    processAnnotationResponse nonIdemDoc "C".data [] false
      = ("[*c], C\n[t], x, 1000000000000000000 1e6" : String).data
    ∧ processAnnotationResponse
        (processAnnotationResponse nonIdemDoc "C".data [] false) "C".data [] false
      = ("[*c], C\n[t], x, 1000000000000000000 1000000" : String).data
    ∧ processAnnotationResponse
        (processAnnotationResponse nonIdemDoc "C".data [] false) "C".data [] false
      ≠ processAnnotationResponse nonIdemDoc "C".data [] false := by
  decide

/-- C2 counterexample: heuristic 1 binds `IFoo ↦ x`, but heuristic 4 later
overwrites the binding to `IFoo ↦ FOO`, and the final variable table binds
two variables to the one interface. -/
theorem c2_binding_overwritten_counterexample :
    pyLookup (aliasStateAfterH3 h4OverwriteSrc).interface_to_var "IFoo".data
      = some "x".data
    ∧ pyLookup (resolveAliases h4OverwriteSrc).interface_to_var "IFoo".data
      = some "FOO".data
    ∧ (resolveAliases h4OverwriteSrc).var_to_interface
      = [("x".data, "IFoo".data), ("FOO".data, "IFoo".data)] := by
  decide

/-- C3 counterexample: the normalizer only tests substring containment of
the header, so a candidate holding the header on a later line is returned
unchanged and its first non-blank line is not the canonical header. -/
theorem c3_first_line_counterexample :
    processAnnotationResponse headerNotFirstDoc "C".data [] false
      = headerNotFirstDoc
    ∧ firstNonBlankLine (processAnnotationResponse headerNotFirstDoc "C".data [] false)
      = some "junk".data
    ∧ some "junk".data ≠ some (headerLine "C".data) := by
  decide

/-- C4: when the boundary collaborator returns no content (or empty
content), processing is skipped and the returned document is exactly the
minimal valid document, the header line followed by a blank line. -/
theorem c4_boundary_failure_minimal_doc :
    ∀ (contractName : Str) (functionNames : List Str) (isFinancial : Bool),
      makeApiCall contractName functionNames isFinancial none
          = minimalDoc contractName
        ∧ makeApiCall contractName functionNames isFinancial (some [])
          = minimalDoc contractName
        ∧ minimalDoc contractName = headerLine contractName ++ "\n\n".data := by
  intro contractName functionNames isFinancial
  refine ⟨rfl, ?_, rfl⟩
  simp [makeApiCall]

/-- C5 (Scenario A): the scanner finds exactly one variable
`totalDeposits` and one function `deposit` with the single parameter
`amount`, and the no-client fallback writes the header-plus-blank-line
token document and the empty financial document. -/
theorem c5_scenario_a :
    contractNameOf vaultSrc = some "Vault".data
    ∧ variablesOf vaultSrc = [("uint".data, "totalDeposits".data)]
    ∧ functionsOf vaultSrc = [("deposit".data, "uint256 amount".data)]
    ∧ funcParamsOf vaultSrc "deposit".data = [("uint256".data, "amount".data)]
    ∧ noClientOutputs "Vault".data = (("[*c], Vault\n\n" : String).data, []) := by
  decide

/-- C7 (Scenario C): with `PAIRS` bound to `IPairsContract`, the direct
call `PAIRS.balanceOf(x)` and the cast call `IPairsContract(addr).approve(y)`
are unioned into the one external-call entry for `PAIRS`. -/
theorem c7_scenario_c :
    pyLookup (resolveAliases scenarioCSrc).interface_to_var "IPairsContract".data
      = some "PAIRS".data
    ∧ "balanceOf".data ∈ (pyLookup (extCallsOf scenarioCSrc) "PAIRS".data).getD []
    ∧ "approve".data ∈ (pyLookup (extCallsOf scenarioCSrc) "PAIRS".data).getD [] := by
  decide

/-- C6 counterexample: a financial array-tag line with only two comma
fields and a bare-integer trailing token is left unchanged, because the
`[tref]` repair additionally requires at least three fields. -/
theorem c6_tref_short_line_counterexample :
    containsSub "[tref],".data "[tref], 5".data = true
    ∧ isDigitStr (stripPy ((splitChar ',' "[tref], 5".data).getLastD [])) = true
    ∧ containsSub "f:".data "[tref], 5".data = false
    ∧ processAnnotationResponse trefShortDoc "C".data [] true = trefShortDoc := by
  decide

/-- C8 counterexample: in a tagged line whose comma field holds `1e18`
before `1e6`, only the first literal is expanded, so the `1e6` substring
survives one application of the normalizer instead of becoming `1000000`. -/
theorem c8_second_literal_counterexample :
    processAnnotationResponse sciTwoLitDoc "D".data [] false
      = ("[*c], D\n[t], y, 1000000000000000000 1e6" : String).data
    ∧ containsSub "1e6".data
        (processAnnotationResponse sciTwoLitDoc "D".data [] false) = true := by
  decide

/-- C9 counterexample: the declared interface `Foo` has no binding in the
final alias table — the fallback only synthesizes names for interfaces
starting with `I` and longer than one character. -/
theorem c9_noninterface_unbound_counterexample :
    interfacesOf plainIfaceSrc = ["Foo".data]
    ∧ pyLookup (resolveAliases plainIfaceSrc).interface_to_var "Foo".data = none := by
  decide

/-!  Elementary facts about the Python string primitives. -/

theorem containsSub_cons (pat : Str) (c : Char) (s : Str) :
    containsSub pat (c :: s) = (isPrefixB pat (c :: s) || containsSub pat s) := rfl

theorem containsSub_nil_pat (s : Str) : containsSub [] s = true := by
  cases s <;> simp [containsSub, isPrefixB]

theorem isPrefixB_mem : ∀ {pat s : Str} {c : Char},
    isPrefixB pat s = true → c ∈ pat → c ∈ s := by
  intro pat
  induction pat with
  | nil => intro s c _ hc; cases hc
  | cons p ps ih =>
    intro s c h hc
    cases s with
    | nil => simp [isPrefixB] at h
    | cons d ds =>
      simp only [isPrefixB, Bool.and_eq_true, decide_eq_true_eq] at h
      rcases List.mem_cons.mp hc with rfl | hc
      · exact h.1 ▸ List.mem_cons_self _ _
      · exact List.mem_cons_of_mem _ (ih h.2 hc)

theorem containsSub_eq_false_of_not_mem {pat : Str} {c : Char} (hc : c ∈ pat) :
    ∀ {s : Str}, c ∉ s → containsSub pat s = false := by
  intro s
  induction s with
  | nil =>
    intro _
    cases pat with
    | nil => cases hc
    | cons p ps => rfl
  | cons d ds ih =>
    intro hs
    rw [containsSub_cons]
    have h1 : isPrefixB pat (d :: ds) = false := by
      cases hpre : isPrefixB pat (d :: ds) with
      | true => exact absurd (isPrefixB_mem hpre hc) hs
      | false => rfl
    have h2 : containsSub pat ds = false :=
      ih (fun m => hs (List.mem_cons_of_mem _ m))
    simp [h1, h2]

theorem isPrefixB_self (s : Str) : isPrefixB s s = true := by
  induction s with
  | nil => rfl
  | cons c cs ih => simp [isPrefixB, ih]

theorem isPrefixB_append : ∀ {pat x : Str} (y : Str),
    isPrefixB pat x = true → isPrefixB pat (x ++ y) = true := by
  intro pat
  induction pat with
  | nil => intro x y _; rfl
  | cons p ps ih =>
    intro x y h
    cases x with
    | nil => simp [isPrefixB] at h
    | cons d ds =>
      simp only [isPrefixB, Bool.and_eq_true, decide_eq_true_eq] at h
      simp only [List.cons_append, isPrefixB, Bool.and_eq_true, decide_eq_true_eq]
      exact ⟨h.1, ih y h.2⟩

theorem containsSub_self (pat : Str) : containsSub pat pat = true := by
  cases pat with
  | nil => rfl
  | cons c cs => rw [containsSub_cons]; simp [isPrefixB_self]

theorem containsSub_append_left {pat a : Str} (b : Str)
    (h : containsSub pat a = true) : containsSub pat (a ++ b) = true := by
  induction a with
  | nil =>
    have : pat = [] := by
      cases pat with
      | nil => rfl
      | cons p ps => simp [containsSub] at h
    subst this; exact containsSub_nil_pat _
  | cons c a' ih =>
    rw [containsSub_cons] at h
    rw [List.cons_append, containsSub_cons]
    rcases Bool.or_eq_true_iff.mp h with hpre | hsub
    · have hx : isPrefixB pat (c :: (a' ++ b)) = true := by
        rw [← List.cons_append]; exact isPrefixB_append b hpre
      simp [hx]
    · simp [ih hsub]

theorem containsSub_append_right {pat : Str} (a : Str) {b : Str}
    (h : containsSub pat b = true) : containsSub pat (a ++ b) = true := by
  induction a with
  | nil => simpa using h
  | cons c a' ih => rw [List.cons_append, containsSub_cons]; simp [ih]

theorem exists_of_isPrefixB : ∀ {pat s : Str},
    isPrefixB pat s = true → ∃ t, s = pat ++ t := by
  intro pat
  induction pat with
  | nil => intro s _; exact ⟨s, rfl⟩
  | cons p ps ih =>
    intro s h
    cases s with
    | nil => simp [isPrefixB] at h
    | cons d ds =>
      simp only [isPrefixB, Bool.and_eq_true, decide_eq_true_eq] at h
      obtain ⟨t, ht⟩ := ih h.2
      exact ⟨t, by simp [h.1.symm, ht]⟩

theorem endsWithB_imp_containsSub {pat s : Str}
    (h : endsWithB pat s = true) : containsSub pat s = true := by
  obtain ⟨t, ht⟩ := exists_of_isPrefixB h
  have hs : s = t.reverse ++ pat := by
    have := congrArg List.reverse ht
    simpa using this
  rw [hs]
  exact containsSub_append_right _ (containsSub_self pat)

theorem isPrefixB_append_sep {sep : Char} : ∀ {pat : Str}, sep ∉ pat →
    ∀ (x y : Str), isPrefixB pat (x ++ sep :: y) = isPrefixB pat x := by
  intro pat
  induction pat with
  | nil => intro _ x y; rfl
  | cons p ps ih =>
    intro hsep x y
    cases x with
    | nil =>
      have hp : p ≠ sep := fun h => hsep (h ▸ List.mem_cons_self _ _)
      simp [isPrefixB, hp]
    | cons d ds =>
      simp only [List.cons_append, isPrefixB, List.append_eq]
      rw [ih (fun m => hsep (List.mem_cons_of_mem _ m)) ds y]

theorem containsSub_append_sep {pat : Str} {sep : Char} (hne : pat ≠ [])
    (hsep : sep ∉ pat) : ∀ (a b : Str),
    containsSub pat (a ++ sep :: b) = (containsSub pat a || containsSub pat b) := by
  intro a
  induction a with
  | nil =>
    intro b
    rw [List.nil_append, containsSub_cons]
    have h1 : isPrefixB pat (sep :: b) = false := by
      have := isPrefixB_append_sep hsep [] b
      rw [List.nil_append] at this
      rw [this]
      cases pat with
      | nil => exact absurd rfl hne
      | cons p ps => rfl
    have h2 : containsSub pat [] = false := by
      cases pat with
      | nil => exact absurd rfl hne
      | cons p ps => rfl
    simp [h1, h2]
  | cons c a' ih =>
    intro b
    rw [List.cons_append, containsSub_cons, ih b]
    have : isPrefixB pat (c :: (a' ++ sep :: b)) = isPrefixB pat (c :: a') := by
      have := isPrefixB_append_sep hsep (c :: a') b
      rw [List.cons_append] at this
      exact this
    rw [this, containsSub_cons, Bool.or_assoc]

/-!  Split / join algebra. -/

theorem splitChar_ne_nil (sep : Char) (s : Str) : splitChar sep s ≠ [] := by
  cases s with
  | nil => simp [splitChar]
  | cons c cs =>
    simp only [splitChar]
    split
    · simp
    · split
      · simp
      · simp

theorem splitChar_no_sep {sep : Char} : ∀ {a : Str}, sep ∉ a →
    splitChar sep a = [a] := by
  intro a
  induction a with
  | nil => intro _; rfl
  | cons c cs ih =>
    intro h
    have hc : ¬(c = sep) := fun e => h (e ▸ List.mem_cons_self _ _)
    have hcs := ih (fun m => h (List.mem_cons_of_mem _ m))
    simp [splitChar, hc, hcs]

theorem splitChar_append_sep {sep : Char} : ∀ {a : Str}, sep ∉ a → ∀ (b : Str),
    splitChar sep (a ++ sep :: b) = a :: splitChar sep b := by
  intro a
  induction a with
  | nil => intro _ b; simp [splitChar]
  | cons c cs ih =>
    intro h b
    have hc : ¬(c = sep) := fun e => h (e ▸ List.mem_cons_self _ _)
    have hcs := ih (fun m => h (List.mem_cons_of_mem _ m)) b
    simp only [List.cons_append, splitChar, hc, if_false]
    rw [show cs.append (sep :: b) = cs ++ sep :: b from rfl, hcs]

theorem joinChar_splitChar (sep : Char) : ∀ (s : Str),
    joinChar sep (splitChar sep s) = s := by
  intro s
  induction s with
  | nil => rfl
  | cons c cs ih =>
    by_cases hc : c = sep
    · subst hc
      have hne := splitChar_ne_nil c cs
      simp only [splitChar, if_pos rfl]
      cases hsp : splitChar c cs with
      | nil => exact absurd hsp hne
      | cons h t =>
        rw [hsp] at ih
        simp only [joinChar]
        rw [ih]
        simp
    · have hne := splitChar_ne_nil sep cs
      simp only [splitChar, if_neg hc]
      cases hsp : splitChar sep cs with
      | nil => exact absurd hsp hne
      | cons h t =>
        rw [hsp] at ih
        cases t with
        | nil => simpa [joinChar] using congrArg (c :: ·) ih
        | cons t0 ts => simpa [joinChar] using congrArg (c :: ·) ih

theorem splitChar_joinChar {sep : Char} : ∀ {parts : List Str},
    (∀ p ∈ parts, sep ∉ p) → parts ≠ [] →
    splitChar sep (joinChar sep parts) = parts := by
  intro parts
  induction parts with
  | nil => intro _ h; exact absurd rfl h
  | cons p ps ih =>
    intro h _
    cases ps with
    | nil => exact splitChar_no_sep (h p (List.mem_cons_self _ _))
    | cons q qs =>
      have hjoin : joinChar sep (p :: q :: qs) = p ++ sep :: joinChar sep (q :: qs) := rfl
      rw [hjoin, splitChar_append_sep (h p (List.mem_cons_self _ _))]
      rw [ih (fun x hx => h x (List.mem_cons_of_mem _ hx)) (by simp)]

theorem containsSub_joinChar {pat : Str} {sep : Char} (hne : pat ≠ [])
    (hsep : sep ∉ pat) : ∀ (parts : List Str),
    containsSub pat (joinChar sep parts)
      = parts.any (fun p => containsSub pat p) := by
  intro parts
  induction parts with
  | nil =>
    cases pat with
    | nil => exact absurd rfl hne
    | cons p ps => rfl
  | cons p ps ih =>
    cases ps with
    | nil =>
      simp [joinChar, List.any_cons]
    | cons q qs =>
      have hjoin : joinChar sep (p :: q :: qs) = p ++ sep :: joinChar sep (q :: qs) := rfl
      rw [hjoin, containsSub_append_sep hne hsep, ih]
      simp [List.any_cons]

theorem joinChar_append_last (sep : Char) : ∀ (l : List Str) (x : Str),
    ∃ B, joinChar sep (l ++ [x]) = B ++ x := by
  intro l
  induction l with
  | nil => intro x; exact ⟨[], rfl⟩
  | cons p ps ih =>
    intro x
    obtain ⟨B, hB⟩ := ih x
    cases hps : ps ++ [x] with
    | nil => exact absurd hps (by simp)
    | cons h t =>
      refine ⟨p ++ sep :: B, ?_⟩
      rw [List.cons_append]
      have hstruct : joinChar sep (p :: (ps ++ [x])) = p ++ sep :: joinChar sep (ps ++ [x]) := by
        rw [hps]; rfl
      rw [hstruct, hB]
      simp

/-!  Dictionary lemmas: Python-dict assignment never disturbs other keys,
and keeps keys duplicate-free. -/

theorem pyLookup_eq_none_iff {V : Type} : ∀ {d : List (Str × V)} {k : Str},
    pyLookup d k = none ↔ ∀ p ∈ d, p.1 ≠ k := by
  intro d
  induction d with
  | nil =>
    intro k
    constructor
    · intro _ p hp; cases hp
    · intro _; rfl
  | cons p ps ih =>
    intro k
    by_cases hp : p.1 = k
    · constructor
      · intro h
        simp only [pyLookup, if_pos hp] at h
        exact absurd h (by simp)
      · intro h
        exact absurd hp (h p (List.mem_cons_self _ _))
    · simp only [pyLookup, if_neg hp, List.mem_cons]
      constructor
      · intro h q hq
        rcases hq with rfl | hq
        · exact hp
        · exact (ih.mp h) q hq
      · intro h
        exact ih.mpr (fun q hq => h q (Or.inr hq))

theorem pyLookup_map_update {V : Type} (k : Str) (v : V) (k' : Str)
    (h : k' ≠ k) : ∀ (d : List (Str × V)),
    pyLookup (d.map (fun p => if p.1 = k then (k, v) else p)) k'
      = pyLookup d k' := by
  intro d
  induction d with
  | nil => rfl
  | cons p ps ih =>
    rw [List.map_cons]
    by_cases hp : p.1 = k
    · rw [if_pos hp]
      have hk2 : ¬((k, v).1 = k') := fun e => h (Eq.symm e)
      have hp2 : ¬(p.1 = k') := fun e => h (Eq.symm (hp.symm.trans e))
      simp only [pyLookup, if_neg hk2, if_neg hp2]
      exact ih
    · rw [if_neg hp]
      simp only [pyLookup]
      rw [ih]

theorem pyLookup_map_update_self {V : Type} (k : Str) (v : V) :
    ∀ (d : List (Str × V)), hasKey d k = true →
    pyLookup (d.map (fun p => if p.1 = k then (k, v) else p)) k = some v := by
  intro d
  induction d with
  | nil => intro h; simp [hasKey, pyLookup] at h
  | cons p ps ih =>
    intro h
    rw [List.map_cons]
    by_cases hp : p.1 = k
    · rw [if_pos hp]
      simp [pyLookup]
    · rw [if_neg hp]
      simp only [pyLookup, if_neg hp]
      exact ih (by simpa [hasKey, pyLookup, hp] using h)

theorem pyLookup_append_single_self {V : Type} (k : Str) (v : V) :
    ∀ (d : List (Str × V)), hasKey d k = false →
    pyLookup (d ++ [(k, v)]) k = some v := by
  intro d
  induction d with
  | nil => intro _; simp [pyLookup]
  | cons p ps ih =>
    intro h
    have hp : ¬(p.1 = k) := by
      intro e
      simp [hasKey, pyLookup, e] at h
    rw [List.cons_append]
    simp only [pyLookup, if_neg hp]
    exact ih (by simpa [hasKey, pyLookup, hp] using h)

theorem pyLookup_append_single_ne {V : Type} (k : Str) (v : V) (k' : Str)
    (h : k' ≠ k) : ∀ (d : List (Str × V)),
    pyLookup (d ++ [(k, v)]) k' = pyLookup d k' := by
  intro d
  induction d with
  | nil =>
    have hk2 : ¬((k, v).1 = k') := fun e => h (Eq.symm e)
    simp [pyLookup, hk2]
  | cons p ps ih =>
    rw [List.cons_append]
    simp only [pyLookup]
    rw [ih]

theorem pyLookup_pyInsert_self {V : Type} (d : List (Str × V)) (k : Str)
    (v : V) : pyLookup (pyInsert d k v) k = some v := by
  unfold pyInsert
  by_cases h : hasKey d k = true
  · rw [if_pos h]
    exact pyLookup_map_update_self k v d h
  · rw [if_neg h]
    exact pyLookup_append_single_self k v d (by simpa using h)

theorem pyLookup_pyInsert_ne {V : Type} {d : List (Str × V)} {k : Str}
    {v : V} {k' : Str} (h : k' ≠ k) :
    pyLookup (pyInsert d k v) k' = pyLookup d k' := by
  unfold pyInsert
  by_cases hh : hasKey d k = true
  · rw [if_pos hh]
    exact pyLookup_map_update k v k' h d
  · rw [if_neg hh]
    exact pyLookup_append_single_ne k v k' h d

theorem hasKey_pyInsert {V : Type} (d : List (Str × V)) (k : Str) (v : V)
    (k' : Str) (h : hasKey d k' = true) :
    hasKey (pyInsert d k v) k' = true := by
  by_cases hk : k' = k
  · subst hk
    simp [hasKey, pyLookup_pyInsert_self]
  · simp only [hasKey] at h ⊢
    rw [pyLookup_pyInsert_ne hk]
    exact h

theorem pyLookup_some_pyInsert {V : Type} {d : List (Str × V)} {k' : Str}
    {v' : V} (k : Str) (v : V) (hk : hasKey d k = false)
    (h : pyLookup d k' = some v') :
    pyLookup (pyInsert d k v) k' = some v' := by
  have hne : k' ≠ k := by
    intro e
    subst e
    simp [hasKey, h] at hk
  rw [pyLookup_pyInsert_ne hne]
  exact h

theorem keys_pyInsert_nodup {V : Type} {d : List (Str × V)}
    (h : (d.map Prod.fst).Nodup) (k : Str) (v : V) :
    ((pyInsert d k v).map Prod.fst).Nodup := by
  unfold pyInsert
  by_cases hk : hasKey d k = true
  · rw [if_pos hk]
    have heq : (d.map (fun p => if p.1 = k then (k, v) else p)).map Prod.fst
        = d.map Prod.fst := by
      rw [List.map_map]
      apply List.map_congr_left
      intro p _
      by_cases hp : p.1 = k
      · simp [Function.comp, hp]
      · simp [Function.comp, hp]
    rw [heq]
    exact h
  · rw [if_neg hk]
    rw [List.map_append, List.nodup_append]
    refine ⟨h, by simp, ?_⟩
    intro a ha hb
    have hak : a = k := by simpa using hb
    subst hak
    have hnone : pyLookup d a = none := by
      have h' : hasKey d a = false := by simpa using hk
      simpa [hasKey, Option.isSome_iff_exists] using
        (Option.not_isSome_iff_eq_none.mp (by simp [hasKey] at h'; simp [h']))
    obtain ⟨p, hp, hp1⟩ := List.mem_map.mp ha
    exact (pyLookup_eq_none_iff.mp hnone p hp) hp1

/-!  Strip / reverse lemmas. -/

theorem containsSub_lstripPy {pat s : Str}
    (h : containsSub pat (lstripPy s) = true) : containsSub pat s = true := by
  have h2 := containsSub_append_right (s.takeWhile isPySpace) h
  unfold lstripPy at h2
  rw [List.takeWhile_append_dropWhile] at h2
  exact h2

theorem rstripPy_append (s : Str) :
    s = rstripPy s ++ (s.reverse.takeWhile isPySpace).reverse := by
  conv_lhs =>
    rw [← List.reverse_reverse s,
        ← List.takeWhile_append_dropWhile (p := isPySpace) (l := s.reverse)]
  rw [List.reverse_append]
  rfl

theorem containsSub_rstripPy {pat s : Str}
    (h : containsSub pat (rstripPy s) = true) : containsSub pat s = true := by
  have h2 := containsSub_append_left ((s.reverse.takeWhile isPySpace).reverse) h
  rw [← rstripPy_append s] at h2
  exact h2

theorem containsSub_stripPy {pat s : Str}
    (h : containsSub pat (stripPy s) = true) : containsSub pat s = true :=
  containsSub_rstripPy (containsSub_lstripPy h)

theorem head?_append_of_ne_nil {α : Type} {l : List α} (l' : List α)
    (h : l ≠ []) : (l ++ l').head? = l.head? := by
  cases l with
  | nil => exact absurd rfl h
  | cons a t => rfl

theorem rstripPy_eq_self {s : Str} {c : Char} (h : s.reverse.head? = some c)
    (hc : isPySpace c = false) : rstripPy s = s := by
  unfold rstripPy lstripPy
  cases hr : s.reverse with
  | nil => rw [hr] at h; cases h
  | cons d t =>
    have hd : d = c := by rw [hr] at h; injection h
    have hws : isPySpace d = false := by rw [hd]; exact hc
    rw [List.dropWhile_cons, hws]
    simp only [Bool.false_eq_true, if_false]
    rw [← hr, List.reverse_reverse]

theorem lstripPy_ne_nil {s : Str} {c : Char} (hc : c ∈ s)
    (hns : isPySpace c = false) : lstripPy s ≠ [] := by
  intro h
  rw [lstripPy, List.dropWhile_eq_nil_iff] at h
  have h2 := h c hc
  rw [hns] at h2
  cases h2

theorem lstripPy_reverse_head? {s : Str} (h : lstripPy s ≠ []) :
    (lstripPy s).reverse.head? = s.reverse.head? := by
  have h2 : (List.dropWhile isPySpace s).reverse ≠ [] := by
    simpa [lstripPy, List.reverse_eq_nil_iff] using h
  conv_rhs =>
    rw [← List.takeWhile_append_dropWhile (p := isPySpace) (l := s),
        List.reverse_append]
  rw [head?_append_of_ne_nil _ h2]
  rfl

theorem stripPy_reverse_head? {s : Str} {c : Char}
    (h : s.reverse.head? = some c) (hcs : isPySpace c = false) :
    (stripPy s).reverse.head? = some c := by
  unfold stripPy
  rw [rstripPy_eq_self h hcs]
  have hmem : c ∈ s := by
    have hmr : c ∈ s.reverse := by
      cases hr : s.reverse with
      | nil => rw [hr] at h; simp at h
      | cons d t =>
        rw [hr] at h
        injection h with hd
        rw [hd]
        exact List.mem_cons_self _ _
    simpa using hmr
  rw [lstripPy_reverse_head? (lstripPy_ne_nil hmem hcs)]
  exact h

theorem endsWithB_fcolon_eq_false {x : Str} {c : Char}
    (h : x.reverse.head? = some c) (hc : c.isDigit = true) :
    endsWithB "f:".data x = false := by
  unfold endsWithB
  have hrev : "f:".data.reverse = [':', 'f'] := by decide
  rw [hrev]
  cases hr : x.reverse with
  | nil => rw [hr] at h; simp at h
  | cons d t =>
    rw [hr] at h
    injection h with hd
    have hne : ¬((':' : Char) = d) := by
      intro e
      rw [hd] at e
      rw [← e] at hc
      exact absurd hc (by decide)
    simp [isPrefixB, hne]

theorem isDigitStr_ne_nil {s : Str} (h : isDigitStr s = true) : s ≠ [] := by
  intro e
  subst e
  simp [isDigitStr] at h

theorem isDigitStr_mem {s : Str} (h : isDigitStr s = true) {c : Char}
    (hc : c ∈ s) : c.isDigit = true := by
  unfold isDigitStr at h
  rw [Bool.and_eq_true, List.all_eq_true] at h
  exact h.2 c hc

theorem isDigit_not_space {c : Char} (h : c.isDigit = true) :
    isPySpace c = false := by
  cases hsp : isPySpace c with
  | false => rfl
  | true =>
    exfalso
    unfold isPySpace at hsp
    simp only [Bool.or_eq_true, decide_eq_true_eq] at hsp
    rcases hsp with ((((e | e) | e) | e) | e) | e <;>
      (subst e; exact absurd h (by decide))

/-!  A generic invariant-preservation helper for the resolver folds. -/

theorem foldl_preserve {α β : Type} {P : α → Prop} {f : α → β → α}
    (hf : ∀ st m, P st → P (f st m)) :
    ∀ (l : List β) (st : α), P st → P (l.foldl f st) := by
  intro l
  induction l with
  | nil => intro st h; exact h
  | cons m ms ih => intro st h; exact ih _ (hf st m h)

/-!  Heuristic-6 (fallback) lemmas and the amended C9 theorem. -/

theorem h6Step_lookup_ne {st : AliasState} {a k : Str} (h : k ≠ a) :
    pyLookup (h6Step st a).interface_to_var k
      = pyLookup st.interface_to_var k := by
  unfold h6Step
  split
  · split
    · exact pyLookup_pyInsert_ne h
    · rfl
  · rfl

theorem h6Step_preserve_some {st : AliasState} {a k : Str} {v : Str}
    (h : pyLookup st.interface_to_var k = some v) :
    pyLookup (h6Step st a).interface_to_var k = some v := by
  by_cases hak : k = a
  · subst hak
    unfold h6Step
    have hk : hasKey st.interface_to_var k = true := by
      simp [hasKey, h]
    simp [hk]
    exact h
  · rw [h6Step_lookup_ne hak]
    exact h

theorem h6Step_preserve_hasKey {st : AliasState} {a k : Str}
    (h : hasKey st.interface_to_var k = true) :
    hasKey (h6Step st a).interface_to_var k = true := by
  simp only [hasKey, Option.isSome_iff_exists] at h
  obtain ⟨v, hv⟩ := h
  simp [hasKey, h6Step_preserve_some hv]

/-- C9 (amended): after the fallback pass every interface named `I…` with
more than one character has a binding, and when it entered the pass unbound
its binding is the synthesized name `iface[1:].upper()`.  Interfaces not
matching that shape (the counterexample) can stay unbound. -/
theorem c9_fallback_amended (st : AliasState) (ifaces : List Str)
    (iface : Str) (hmem : iface ∈ ifaces)
    (hI : isPrefixB "I".data iface = true) (hlen : 1 < iface.length) :
    hasKey (ifaces.foldl h6Step st).interface_to_var iface = true
    ∧ (hasKey st.interface_to_var iface = false →
        pyLookup (ifaces.foldl h6Step st).interface_to_var iface
          = some (upperStr (iface.drop 1))) := by
  induction ifaces generalizing st with
  | nil => cases hmem
  | cons a l ih =>
    rw [List.foldl_cons]
    by_cases ha : iface = a
    · subst ha
      have hstep : ∀ st0 : AliasState,
          hasKey st0.interface_to_var iface = false →
          pyLookup (h6Step st0 iface).interface_to_var iface
            = some (upperStr (iface.drop 1)) := by
        intro st0 h0
        unfold h6Step
        have hcond : (isPrefixB "I".data iface && decide (1 < iface.length))
            = true := by
          rw [hI, decide_eq_true hlen]
          rfl
        simp only [h0, Bool.not_false, if_true, hcond]
        exact pyLookup_pyInsert_self _ _ _
      have hkey1 : hasKey (h6Step st iface).interface_to_var iface = true := by
        by_cases h0 : hasKey st.interface_to_var iface = true
        · exact h6Step_preserve_hasKey h0
        · have h0f : hasKey st.interface_to_var iface = false := by
            simpa using h0
          simp [hasKey, hstep st h0f]
      constructor
      · exact foldl_preserve
          (P := fun s : AliasState => hasKey s.interface_to_var iface = true)
          (fun st0 m hp => h6Step_preserve_hasKey hp) l _ hkey1
      · intro h0
        exact foldl_preserve
          (P := fun s : AliasState => pyLookup s.interface_to_var iface
            = some (upperStr (iface.drop 1)))
          (fun st0 m hp => h6Step_preserve_some hp) l _ (hstep st h0)
    · have hmem' : iface ∈ l := by
        rcases List.mem_cons.mp hmem with h | h
        · exact absurd h ha
        · exact h
      obtain ⟨ih1, ih2⟩ := ih (h6Step st a) hmem'
      refine ⟨ih1, fun h0 => ih2 ?_⟩
      simp only [hasKey, h6Step_lookup_ne ha]
      simpa [hasKey] using h0

/-!  Per-heuristic preservation of key uniqueness, and heuristic-3
stability: the amended C2 material. -/

theorem h1Step_keys_nodup {st : AliasState} {m : Str × Str × Str}
    (h : (st.interface_to_var.map Prod.fst).Nodup) :
    ((h1Step st m).interface_to_var.map Prod.fst).Nodup := by
  simp only [h1Step]
  split
  · split
    · exact keys_pyInsert_nodup (keys_pyInsert_nodup h _ _) _ _
    · exact keys_pyInsert_nodup h _ _
  · split
    · exact keys_pyInsert_nodup h _ _
    · exact h

theorem h2Step_keys_nodup {st : AliasState} {m : Str × Str}
    (h : (st.interface_to_var.map Prod.fst).Nodup) :
    ((h2Step st m).interface_to_var.map Prod.fst).Nodup := by
  simp only [h2Step]
  split
  · exact keys_pyInsert_nodup h _ _
  · exact h

theorem h3Step_keys_nodup {st : AliasState} {m : Str}
    (h : (st.interface_to_var.map Prod.fst).Nodup) :
    ((h3Step st m).interface_to_var.map Prod.fst).Nodup := by
  simp only [h3Step]
  split
  · split
    · exact keys_pyInsert_nodup h _ _
    · exact h
  · exact h

theorem h4Step_keys_nodup {ifaces : List Str} {st : AliasState} {m : Str}
    (h : (st.interface_to_var.map Prod.fst).Nodup) :
    ((h4Step ifaces st m).interface_to_var.map Prod.fst).Nodup := by
  simp only [h4Step]
  split
  · split
    · exact keys_pyInsert_nodup h _ _
    · exact h
  · exact h

theorem h5Step_keys_nodup {contracts : List Str} {st : AliasState} {m : Str}
    (h : (st.interface_to_var.map Prod.fst).Nodup) :
    ((h5Step contracts st m).interface_to_var.map Prod.fst).Nodup := by
  simp only [h5Step]
  split
  · apply foldl_preserve
      (P := fun s : AliasState => (s.interface_to_var.map Prod.fst).Nodup)
    · intro st0 c hp
      split
      · split
        · exact keys_pyInsert_nodup hp _ _
        · exact hp
      · exact hp
    · exact h
  · exact h

theorem h6Step_keys_nodup {st : AliasState} {m : Str}
    (h : (st.interface_to_var.map Prod.fst).Nodup) :
    ((h6Step st m).interface_to_var.map Prod.fst).Nodup := by
  simp only [h6Step]
  split
  · split
    · exact keys_pyInsert_nodup h _ _
    · exact h
  · exact h

theorem resolveAliases_keys_nodup (content : Str) :
    ((resolveAliases content).interface_to_var.map Prod.fst).Nodup := by
  simp only [resolveAliases, aliasStateAfterH3]
  apply foldl_preserve
    (P := fun s : AliasState => (s.interface_to_var.map Prod.fst).Nodup)
    (fun st0 m hp => h6Step_keys_nodup hp)
  apply foldl_preserve
    (P := fun s : AliasState => (s.interface_to_var.map Prod.fst).Nodup)
    (fun st0 m hp => h5Step_keys_nodup hp)
  apply foldl_preserve
    (P := fun s : AliasState => (s.interface_to_var.map Prod.fst).Nodup)
    (fun st0 m hp => h4Step_keys_nodup hp)
  apply foldl_preserve
    (P := fun s : AliasState => (s.interface_to_var.map Prod.fst).Nodup)
    (fun st0 m hp => h3Step_keys_nodup hp)
  apply foldl_preserve
    (P := fun s : AliasState => (s.interface_to_var.map Prod.fst).Nodup)
    (fun st0 m hp => h2Step_keys_nodup hp)
  apply foldl_preserve
    (P := fun s : AliasState => (s.interface_to_var.map Prod.fst).Nodup)
    (fun st0 m hp => h1Step_keys_nodup hp)
  simp

theorem h3Step_preserve_i2v {st : AliasState} {m : Str} {k v : Str}
    (h : pyLookup st.interface_to_var k = some v) :
    pyLookup (h3Step st m).interface_to_var k = some v := by
  simp only [h3Step]
  split
  · split
    · rename_i hguard
      have hm : hasKey st.interface_to_var m = false := by
        simp only [Bool.and_eq_true, Bool.not_eq_true'] at hguard
        exact hguard.2
      exact pyLookup_some_pyInsert _ _ hm h
    · exact h
  · exact h

theorem h3Step_preserve_v2i {st : AliasState} {m : Str} {k v : Str}
    (h : pyLookup st.var_to_interface k = some v) :
    pyLookup (h3Step st m).var_to_interface k = some v := by
  simp only [h3Step]
  split
  · split
    · rename_i hguard
      have hm : hasKey st.var_to_interface (upperStr (m.drop 1)) = false := by
        simp only [Bool.and_eq_true, Bool.not_eq_true'] at hguard
        exact hguard.1
      exact pyLookup_some_pyInsert _ _ hm h
    · exact h
  · exact h

/-- C2 (amended): heuristic 3 never changes either side of an existing
binding, and the interface-to-variable table always has duplicate-free
keys (at most one variable per interface); the counterexample shows the
remaining parts of the original claim fail (heuristic 4 overwrites, and
the variable table can bind two variables to one interface). -/
theorem c2_binding_stability_amended :
    (∀ (st : AliasState) (ms : List Str) (iface v : Str),
        pyLookup st.interface_to_var iface = some v →
        pyLookup (ms.foldl h3Step st).interface_to_var iface = some v)
    ∧ (∀ (st : AliasState) (ms : List Str) (vn i : Str),
        pyLookup st.var_to_interface vn = some i →
        pyLookup (ms.foldl h3Step st).var_to_interface vn = some i)
    ∧ (∀ content : Str,
        ((resolveAliases content).interface_to_var.map Prod.fst).Nodup) := by
  refine ⟨?_, ?_, ?_⟩
  · intro st ms iface v h
    exact foldl_preserve
      (P := fun s : AliasState => pyLookup s.interface_to_var iface = some v)
      (fun st0 m hp => h3Step_preserve_i2v hp) ms st h
  · intro st ms vn i h
    exact foldl_preserve
      (P := fun s : AliasState => pyLookup s.var_to_interface vn = some i)
      (fun st0 m hp => h3Step_preserve_v2i hp) ms st h
  · exact resolveAliases_keys_nodup

/-- Witness for the amended C2: a binding `IFoo ↦ x` survives a
heuristic-3 pass over a candidate match for the same interface, and the
counterexample source's final interface table has duplicate-free keys. -/
theorem c2_binding_stability_amended_witness :
    pyLookup ((["IFoo".data]).foldl h3Step
        ⟨[("IFoo".data, "x".data)], [("x".data, "IFoo".data)]⟩).interface_to_var
      "IFoo".data = some "x".data
    ∧ ((resolveAliases h4OverwriteSrc).interface_to_var.map Prod.fst).Nodup := by
  constructor
  · exact c2_binding_stability_amended.1 _ _ _ _ (by decide)
  · exact c2_binding_stability_amended.2.2 h4OverwriteSrc

/-- Witness for the amended C9: the single interface `IFoo`, unbound on
entry, is bound to `FOO` by the fallback pass. -/
theorem c9_fallback_amended_witness :
    hasKey ((["IFoo".data]).foldl h6Step
        (⟨[], []⟩ : AliasState)).interface_to_var "IFoo".data = true
    ∧ pyLookup ((["IFoo".data]).foldl h6Step
        (⟨[], []⟩ : AliasState)).interface_to_var "IFoo".data
      = some (upperStr ("IFoo".data.drop 1)) := by
  have h := c9_fallback_amended ⟨[], []⟩ ["IFoo".data] "IFoo".data
    (by decide) (by decide) (by decide)
  exact ⟨h.1, h.2 (by decide)⟩

/-- C8 (amended): the token numeric pass leaves every line carrying none
of the `[t],` / `[ta],` / `[tref],` tags unchanged, and in a tagged line
it rewrites the field's first scientific literal to its decimal expansion
— in particular `1e6` becomes `1000000` when it is the first literal of
its field (the counterexample shows a second literal in the same field
survives). -/
theorem c8_sci_rewrite_amended :
    (∀ line : Str,
        containsSub "[t],".data line = false →
        containsSub "[ta],".data line = false →
        containsSub "[tref],".data line = false →
        sciFixLine line = line)
    ∧ sciFixLine "[t], global, x, 1e6".data
        = "[t], global, x, 1000000".data := by
  constructor
  · intro line h1 h2 h3
    unfold sciFixLine
    rw [h1, h2, h3]
    simp
  · decide

/-- Witness for the amended C8: an untagged line holding `1e6` is left
unchanged by the numeric pass. -/
theorem c8_sci_rewrite_amended_witness :
    sciFixLine "note 1e6 stays".data = "note 1e6 stays".data :=
  c8_sci_rewrite_amended.1 _ (by decide) (by decide) (by decide)

/-- C10: in the financial skip re-tagging scan, a non-blank line that does
not start with `[`, whose original predecessor does not start with `[xf]`,
met outside a started skip section, is re-tagged with the `[xf], ` prefix
as soon as it contains `addToPosition`, `withdraw` or `deposit` — for any
contract function list, including the empty one — and a whole-document
run shows the behavior with no declared functions. -/
theorem c10_skip_retag_hardcoded :
    (∀ (functionNames : List Str) (prev line : Str) (rest : List Str),
        (stripPy line).isEmpty = false →
        isPrefixB "[".data line = false →
        isPrefixB "[xf]".data prev = false →
        (containsSub "addToPosition".data line
          || containsSub "withdraw".data line
          || containsSub "deposit".data line) = true →
        finSkipAux functionNames (some prev) false (line :: rest)
          = ("[xf], ".data ++ stripPy line)
              :: finSkipAux functionNames (some line) true rest)
    ∧ processAnnotationResponse withdrawDoc "C".data [] true
        = ("[*c], C\n\n[xf], xx withdraw yy" : String).data := by
  constructor
  · intro functionNames prev line rest hblank hbr hprev hhit
    have hname : skipNameHit functionNames line = true := by
      unfold skipNameHit
      rw [hhit]
      rfl
    conv_lhs => rw [finSkipAux]
    simp [hblank, hbr, hprev, hname]
  · decide

/-- Witness for C10: a concrete step with no declared functions re-tags a
`withdraw` line. -/
theorem c10_skip_retag_hardcoded_witness :
    finSkipAux [] (some "[*c], C".data) false ["a withdraw b".data]
      = ["[xf], a withdraw b".data] := by
  have h := c10_skip_retag_hardcoded.1 [] "[*c], C".data "a withdraw b".data []
    (by decide) (by decide) (by decide) (by decide)
  rw [h]
  decide

/-!  Support for the amended C6: the financial trailing-token repair. -/

theorem containsSub_of_isPrefixB {pat s : Str} (h : isPrefixB pat s = true) :
    containsSub pat s = true := by
  cases s with
  | nil =>
    cases pat with
    | nil => rfl
    | cons p ps => simp [isPrefixB] at h
  | cons c cs =>
    rw [containsSub_cons, h]
    rfl

theorem containsSub_fcolon_newLast (digits : Str) :
    containsSub "f:".data (" f:".data ++ digits) = true := by
  have h2 : containsSub "f:".data ("f:".data ++ digits) = true :=
    containsSub_of_isPrefixB (isPrefixB_append digits (isPrefixB_self _))
  show containsSub "f:".data (' ' :: ("f:".data ++ digits)) = true
  rw [containsSub_cons, h2]
  simp

theorem containsSub_fcolon_join (parts0 : List Str) (digits : Str) :
    containsSub "f:".data
      (joinChar ',' (parts0.dropLast ++ [" f:".data ++ digits])) = true := by
  rw [containsSub_joinChar (by decide) (by decide)]
  rw [List.any_eq_true]
  exact ⟨" f:".data ++ digits,
    List.mem_append_right _ (List.mem_singleton_self _),
    containsSub_fcolon_newLast digits⟩

theorem containsSub_sefa_join_false (parts0 : List Str) {digits : Str}
    (hall : ∀ p ∈ parts0, containsSub "[sefa]".data p = false)
    (hdig : isDigitStr digits = true) :
    containsSub "[sefa]".data
      (joinChar ',' (parts0.dropLast ++ [" f:".data ++ digits])) = false := by
  rw [containsSub_joinChar (by decide) (by decide)]
  rw [List.any_eq_false]
  intro p hp
  rcases List.mem_append.mp hp with hp | hp
  · have h := hall p ((List.dropLast_sublist parts0).subset hp)
    simp [h]
  · rw [List.mem_singleton] at hp
    subst hp
    have hnot : '[' ∉ " f:".data ++ digits := by
      intro hm
      rcases List.mem_append.mp hm with hm | hm
      · exact absurd hm (by decide)
      · exact absurd (isDigitStr_mem hdig hm) (by decide)
    have hmem : ('[' : Char) ∈ "[sefa]".data := by decide
    simp only [Bool.not_eq_true]
    exact containsSub_eq_false_of_not_mem hmem hnot

theorem endsWith_fcolon_strip_join_false (parts0 : List Str) {digits : Str}
    (hdig : isDigitStr digits = true) :
    endsWithB "f:".data
      (stripPy (joinChar ',' (parts0.dropLast ++ [" f:".data ++ digits])))
      = false := by
  obtain ⟨B, hB⟩ := joinChar_append_last ',' parts0.dropLast (" f:".data ++ digits)
  have hline : joinChar ',' (parts0.dropLast ++ [" f:".data ++ digits])
      = (B ++ " f:".data) ++ digits := by
    rw [hB, List.append_assoc]
  have hne : digits ≠ [] := isDigitStr_ne_nil hdig
  obtain ⟨d, t, hd⟩ : ∃ d t, digits.reverse = d :: t := by
    cases hr : digits.reverse with
    | nil =>
      exfalso
      apply hne
      have h2 := congrArg List.reverse hr
      simpa using h2
    | cons d t => exact ⟨d, t, rfl⟩
  have hdin : d ∈ digits := by
    have hmr : d ∈ digits.reverse := by
      rw [hd]
      exact List.mem_cons_self _ _
    simpa using hmr
  have hddig : d.isDigit = true := isDigitStr_mem hdig hdin
  have hrevhead : (((B ++ " f:".data) ++ digits).reverse).head? = some d := by
    rw [List.reverse_append, head?_append_of_ne_nil _ (by simp [hd]), hd]
    rfl
  rw [hline]
  exact endsWithB_fcolon_eq_false
    (stripPy_reverse_head? hrevhead (isDigit_not_space hddig)) hddig

theorem sefa_all_parts_false {line : Str}
    (hsefa : containsSub "[sefa]".data line = false) :
    ∀ p ∈ splitChar ',' line, containsSub "[sefa]".data p = false := by
  have hjoin : joinChar ',' (splitChar ',' line) = line :=
    joinChar_splitChar ',' line
  have hany : (splitChar ',' line).any
      (fun p => containsSub "[sefa]".data p) = false := by
    rw [← @containsSub_joinChar "[sefa]".data ',' (by decide) (by decide)
        (splitChar ',' line), hjoin]
    exact hsefa
  rw [List.any_eq_false] at hany
  intro p hp
  have h := hany p hp
  simpa using h

/-- C6 (amended): in the financial variant, a plain-field line with no
`f:` and no `[sefa]` tag whose trailing comma token is a bare integer is
rewritten so the trailing token carries the `f:` prefix; an array-field
line is rewritten the same way only when it has at least three comma
fields (the counterexample shows a two-field array line stays unchanged). -/
theorem c6_financial_suffix_repair_amended :
    (∀ line : Str,
        containsSub "[t],".data line = true →
        containsSub "f:".data line = false →
        containsSub "[sefa]".data line = false →
        isDigitStr (stripPy ((splitChar ',' line).getLastD [])) = true →
        finFixLine line
          = joinChar ',' ((splitChar ',' line).dropLast
              ++ [" f:".data ++ stripPy ((splitChar ',' line).getLastD [])]))
    ∧ (∀ line : Str,
        containsSub "[t],".data line = false →
        containsSub "[tref],".data line = true →
        containsSub "f:".data line = false →
        containsSub "[sefa]".data line = false →
        3 ≤ (splitChar ',' line).length →
        isDigitStr (stripPy ((splitChar ',' line).getLastD [])) = true →
        finFixLine line
          = joinChar ',' ((splitChar ',' line).dropLast
              ++ [" f:".data ++ stripPy ((splitChar ',' line).getLastD [])])) := by
  constructor
  · intro line ht hf hsefa hdig
    have hew : endsWithB "f:".data (stripPy line) = false := by
      cases he : endsWithB "f:".data (stripPy line) with
      | false => rfl
      | true =>
        have hc := containsSub_stripPy (endsWithB_imp_containsSub he)
        rw [hf] at hc
        cases hc
    have hcf := containsSub_fcolon_join (splitChar ',' line)
      (stripPy ((splitChar ',' line).getLastD []))
    have hse := containsSub_sefa_join_false (splitChar ',' line)
      (sefa_all_parts_false hsefa) hdig
    have hew2 := endsWith_fcolon_strip_join_false (splitChar ',' line) hdig
    simp only [finFixLine, ht, hf, hew, hdig, hcf, hse, hew2,
      Bool.not_false, Bool.not_true, Bool.true_and, Bool.and_true,
      Bool.and_false, Bool.false_and, Bool.and_self, eq_self_iff_true,
      if_true, Bool.false_eq_true, if_false]
  · intro line ht htref hf hsefa hlen hdig
    have hcf := containsSub_fcolon_join (splitChar ',' line)
      (stripPy ((splitChar ',' line).getLastD []))
    have hse := containsSub_sefa_join_false (splitChar ',' line)
      (sefa_all_parts_false hsefa) hdig
    have hew2 := endsWith_fcolon_strip_join_false (splitChar ',' line) hdig
    have hdec : decide (3 ≤ (splitChar ',' line).length) = true :=
      decide_eq_true hlen
    simp only [finFixLine, ht, htref, hf, hdig, hcf, hse, hew2, hdec,
      Bool.not_false, Bool.not_true, Bool.true_and, Bool.and_true,
      Bool.and_false, Bool.false_and, Bool.and_self, eq_self_iff_true,
      if_true, Bool.false_eq_true, if_false]

/-- Witness for the amended C6: a plain-field line ending `, 10` ends
`, f:10` after repair, and a four-field array line gains the prefix too. -/
theorem c6_financial_suffix_repair_amended_witness :
    finFixLine "[t], g, x, 10".data = "[t], g, x, f:10".data
    ∧ finFixLine "[tref], b, 0, 7".data = "[tref], b, 0, f:7".data := by
  constructor
  · have h := c6_financial_suffix_repair_amended.1 "[t], g, x, 10".data
      (by decide) (by decide) (by decide) (by decide)
    rw [h]
    decide
  · have h := c6_financial_suffix_repair_amended.2 "[tref], b, 0, 7".data
      (by decide) (by decide) (by decide) (by decide) (by decide) (by decide)
    rw [h]
    decide

/-!  Support for the amended C3: the header line passes unchanged through
every normalizer pass, and split/join bookkeeping for the first two lines. -/

theorem headerLine_cons (name : Str) :
    headerLine name = '[' :: '*' :: 'c' :: ']' :: ',' :: ' ' :: name := rfl

theorem isPrefixB_false_of_second {p q : Char} {ps : Str} {c d : Char}
    {s : Str} (h : ¬(q = d)) :
    isPrefixB (p :: q :: ps) (c :: d :: s) = false := by
  have hd : decide (q = d) = false := decide_eq_false h
  show (decide (p = c) && (decide (q = d) && isPrefixB ps s)) = false
  rw [hd, Bool.false_and, Bool.and_false]

theorem isPrefixB_single_self (c : Char) (s : Str) :
    isPrefixB [c] (c :: s) = true := by
  show (decide (c = c) && true) = true
  simp

theorem mem_headerLine {name : Str} {c : Char} (hm : c ∈ headerLine name) :
    c = '[' ∨ c = '*' ∨ c = 'c' ∨ c = ']' ∨ c = ',' ∨ c = ' ' ∨ c ∈ name := by
  rw [headerLine_cons] at hm
  simpa [List.mem_cons] using hm

theorem containsSub_headerLine_bracket {name pt : Str} (h1 : '[' ∉ name)
    (hpre : isPrefixB ('[' :: pt) (headerLine name) = false) :
    containsSub ('[' :: pt) (headerLine name) = false := by
  have hnotmem : '[' ∉ ('*' :: 'c' :: ']' :: ',' :: ' ' :: name) := by
    intro hm
    simp only [List.mem_cons] at hm
    rcases hm with e | e | e | e | e | hm
    · exact absurd e (by decide)
    · exact absurd e (by decide)
    · exact absurd e (by decide)
    · exact absurd e (by decide)
    · exact absurd e (by decide)
    · exact h1 hm
  rw [headerLine_cons, containsSub_cons]
  rw [headerLine_cons] at hpre
  rw [hpre]
  rw [containsSub_eq_false_of_not_mem (List.mem_cons_self '[' pt) hnotmem]
  rfl

theorem header_tag_t_false {name : Str} (h1 : '[' ∉ name) :
    containsSub "[t],".data (headerLine name) = false :=
  containsSub_headerLine_bracket h1
    (by rw [headerLine_cons]; exact isPrefixB_false_of_second (by decide))

theorem header_tag_ta_false {name : Str} (h1 : '[' ∉ name) :
    containsSub "[ta],".data (headerLine name) = false :=
  containsSub_headerLine_bracket h1
    (by rw [headerLine_cons]; exact isPrefixB_false_of_second (by decide))

theorem header_tag_tref_false {name : Str} (h1 : '[' ∉ name) :
    containsSub "[tref],".data (headerLine name) = false :=
  containsSub_headerLine_bracket h1
    (by rw [headerLine_cons]; exact isPrefixB_false_of_second (by decide))

theorem header_tag_sefa_false {name : Str} (h1 : '[' ∉ name) :
    containsSub "[sefa]".data (headerLine name) = false :=
  containsSub_headerLine_bracket h1
    (by rw [headerLine_cons]; exact isPrefixB_false_of_second (by decide))

theorem header_fcolon_false {name : Str} (h2 : ':' ∉ name) :
    containsSub "f:".data (headerLine name) = false := by
  apply containsSub_eq_false_of_not_mem
    (show (':' : Char) ∈ "f:".data by decide)
  intro hm
  rcases mem_headerLine hm with e | e | e | e | e | e | hm
  · exact absurd e (by decide)
  · exact absurd e (by decide)
  · exact absurd e (by decide)
  · exact absurd e (by decide)
  · exact absurd e (by decide)
  · exact absurd e (by decide)
  · exact h2 hm

theorem header_xfcomma_false (name : Str) :
    isPrefixB "[xf],".data (headerLine name) = false := by
  rw [headerLine_cons]
  exact isPrefixB_false_of_second (by decide)

theorem finFixLine_header {name : Str} (h1 : '[' ∉ name) (h2 : ':' ∉ name) :
    finFixLine (headerLine name) = headerLine name := by
  simp only [finFixLine, header_tag_t_false h1, header_tag_tref_false h1,
    header_tag_sefa_false h1, header_fcolon_false h2, Bool.false_and,
    Bool.false_eq_true, if_false]

theorem finFixLine_nil : finFixLine ([] : Str) = [] := by decide

theorem sciFixLine_header {name : Str} (h1 : '[' ∉ name) :
    sciFixLine (headerLine name) = headerLine name := by
  simp only [sciFixLine, header_tag_t_false h1, header_tag_ta_false h1,
    header_tag_tref_false h1, Bool.or_self, Bool.or_false, Bool.and_false,
    Bool.false_eq_true, if_false]

theorem sciFixLine_nil : sciFixLine ([] : Str) = [] := by decide

theorem bracePassLine_header {name : Str} (h1 : '[' ∉ name) :
    bracePassLine (headerLine name) = headerLine name := by
  simp only [bracePassLine, header_tag_sefa_false h1, Bool.false_eq_true,
    if_false]

theorem bracePassLine_nil : bracePassLine ([] : Str) = [] := by decide

theorem splitChar_sep_cons (sep : Char) (b : Str) :
    splitChar sep (sep :: b) = [] :: splitChar sep b := by
  simp [splitChar]

theorem splitChar_joinChar_head {sep : Char} {a : Str} (h : sep ∉ a)
    (l : List Str) :
    ∃ t, splitChar sep (joinChar sep (a :: l)) = a :: t := by
  cases l with
  | nil => exact ⟨[], splitChar_no_sep h⟩
  | cons b bs =>
    refine ⟨splitChar sep (joinChar sep (b :: bs)), ?_⟩
    have hj : joinChar sep (a :: b :: bs) = a ++ sep :: joinChar sep (b :: bs) := rfl
    rw [hj, splitChar_append_sep h]

theorem splitChar_joinChar_two {sep : Char} {a b : Str} (ha : sep ∉ a)
    (hb : sep ∉ b) (l : List Str) :
    ∃ t, splitChar sep (joinChar sep (a :: b :: l)) = a :: b :: t := by
  have hj : joinChar sep (a :: b :: l) = a ++ sep :: joinChar sep (b :: l) := rfl
  rw [hj, splitChar_append_sep ha]
  obtain ⟨t, ht⟩ := splitChar_joinChar_head hb l
  exact ⟨t, by rw [ht]⟩

theorem finSkipAux_none (funcs : List Str) (inSkip : Bool) (line : Str)
    (rest : List Str) :
    finSkipAux funcs none inSkip (line :: rest)
      = line :: finSkipAux funcs (some line)
          (if (isPrefixB "[".data line && !(isPrefixB "[xf]".data line)) = true
           then false else inSkip) rest := by
  conv_lhs => rw [finSkipAux.eq_def]
  simp [Bool.and_false, Bool.false_and]

theorem finSkipAux_blank (funcs : List Str) (prev : Option Str)
    (inSkip : Bool) (rest : List Str) :
    finSkipAux funcs prev inSkip (([] : Str) :: rest)
      = ([] : Str) :: finSkipAux funcs (some []) inSkip rest := by
  conv_lhs => rw [finSkipAux.eq_def]
  have h0 : (stripPy ([] : Str)).isEmpty = true := by decide
  have hbr : isPrefixB "[".data ([] : Str) = false := by decide
  simp [h0, hbr]

theorem xfStripAux_acc (ls : List Str) : ∀ (accRev : List Str) (b : Bool),
    ∃ t, xfStripAux accRev b ls = accRev.reverse ++ t := by
  induction ls with
  | nil =>
    intro acc b
    refine ⟨[], ?_⟩
    rw [xfStripAux.eq_def]
    simp
  | cons line rest ih =>
    intro acc b
    rw [xfStripAux.eq_def]
    dsimp only
    split
    · split
      · obtain ⟨t, ht⟩ :=
          ih (stripPy ((splitChar ',' line).getD 1 []) :: [] :: acc) true
        exact ⟨[] :: stripPy ((splitChar ',' line).getD 1 []) :: t,
          by rw [ht]; simp⟩
      · obtain ⟨t, ht⟩ :=
          ih (stripPy ((splitChar ',' line).getD 1 []) :: acc) true
        exact ⟨stripPy ((splitChar ',' line).getD 1 []) :: t,
          by rw [ht]; simp⟩
    · split
      · obtain ⟨t, ht⟩ := ih (line :: acc) false
        exact ⟨line :: t, by rw [ht]; simp⟩
      · obtain ⟨t, ht⟩ := ih (line :: acc) b
        exact ⟨line :: t, by rw [ht]; simp⟩

/-- C3 (amended): when the candidate does not contain the exact header
substring, the normalizer prepends the header followed by a blank line, and
for both variants the produced document's first line is exactly the
canonical header and its second line is blank.  (The counterexample shows
the original first-non-blank-line claim fails when the candidate holds the
header substring on a later line.) -/
theorem c3_header_prepend_amended (contractName resp : Str)
    (functionNames : List Str) (isFinancial : Bool)
    (h1 : '[' ∉ contractName) (h2 : ':' ∉ contractName)
    (h3 : '\n' ∉ contractName)
    (h4 : containsSub (headerLine contractName) resp = false) :
    ∃ t, splitChar '\n'
        (processAnnotationResponse resp contractName functionNames isFinancial)
      = headerLine contractName :: ([] : Str) :: t := by
  have hnl : '\n' ∉ headerLine contractName := by
    intro hm
    rcases mem_headerLine hm with e | e | e | e | e | e | hm2
    · exact absurd e (by decide)
    · exact absurd e (by decide)
    · exact absurd e (by decide)
    · exact absurd e (by decide)
    · exact absurd e (by decide)
    · exact absurd e (by decide)
    · exact h3 hm2
  have hsplit1 : splitChar '\n'
      (headerLine contractName ++ "\n\n".data ++ lstripPy resp)
      = headerLine contractName :: ([] : Str)
          :: splitChar '\n' (lstripPy resp) := by
    have hnn : ("\n\n".data : Str) ++ lstripPy resp
        = '\n' :: ('\n' :: lstripPy resp) := rfl
    rw [List.append_assoc, hnn, splitChar_append_sep hnl, splitChar_sep_cons]
  simp only [processAnnotationResponse, h4, Bool.not_false, eq_self_iff_true,
    if_true]
  cases isFinancial with
  | true =>
    simp only [eq_self_iff_true, if_true]
    rw [hsplit1, List.map_cons, List.map_cons, finFixLine_header h1 h2,
      finFixLine_nil]
    obtain ⟨t1, ht1⟩ := splitChar_joinChar_two hnl (by exact List.not_mem_nil _)
      ((splitChar '\n' (lstripPy resp)).map finFixLine)
    rw [ht1, finSkipAux_none, ite_self, finSkipAux_blank]
    obtain ⟨t2, ht2⟩ := splitChar_joinChar_two hnl (by exact List.not_mem_nil _)
      (finSkipAux functionNames (some []) false t1)
    rw [ht2, List.map_cons, List.map_cons, bracePassLine_header h1,
      bracePassLine_nil]
    exact splitChar_joinChar_two hnl (by exact List.not_mem_nil _) (t2.map bracePassLine)
  | false =>
    simp only [Bool.false_eq_true, if_false]
    rw [hsplit1]
    have hstep1 : xfStripAux [] false (headerLine contractName :: ([] : Str)
          :: splitChar '\n' (lstripPy resp))
        = xfStripAux [headerLine contractName] false
            (([] : Str) :: splitChar '\n' (lstripPy resp)) := by
      rw [xfStripAux.eq_def]
      dsimp only
      simp only [header_xfcomma_false contractName, Bool.false_eq_true,
        if_false, List.isEmpty_nil, Bool.not_true, Bool.and_false,
        Bool.false_and]
    have hxfnil : isPrefixB "[xf],".data ([] : Str) = false := by decide
    have hstep2 : xfStripAux [headerLine contractName] false
          (([] : Str) :: splitChar '\n' (lstripPy resp))
        = xfStripAux (([] : Str) :: [headerLine contractName]) false
            (splitChar '\n' (lstripPy resp)) := by
      rw [xfStripAux.eq_def]
      dsimp only
      simp only [hxfnil, Bool.false_eq_true, if_false, ite_self]
    rw [hstep1, hstep2]
    obtain ⟨t1, ht1⟩ := xfStripAux_acc (splitChar '\n' (lstripPy resp))
      (([] : Str) :: [headerLine contractName]) false
    have ht1' : xfStripAux (([] : Str) :: [headerLine contractName]) false
          (splitChar '\n' (lstripPy resp))
        = headerLine contractName :: ([] : Str) :: t1 := by
      rw [ht1]
      rfl
    rw [ht1']
    obtain ⟨t2, ht2⟩ := splitChar_joinChar_two hnl (by exact List.not_mem_nil _) t1
    rw [ht2, List.map_cons, List.map_cons, sciFixLine_header h1,
      sciFixLine_nil]
    obtain ⟨t3, ht3⟩ := splitChar_joinChar_two hnl (by exact List.not_mem_nil _)
      (t2.map sciFixLine)
    rw [ht3, List.map_cons, List.map_cons, bracePassLine_header h1,
      bracePassLine_nil]
    exact splitChar_joinChar_two hnl (by exact List.not_mem_nil _) (t3.map bracePassLine)

/-- Witness for the amended C3: a candidate without the header substring is
prepended so the produced document opens with the header and a blank
line. -/
theorem c3_header_prepend_amended_witness :
    ∃ t, splitChar '\n'
        (processAnnotationResponse "some raw reply".data "Vault".data
          ["deposit".data] true)
      = headerLine "Vault".data :: ([] : Str) :: t :=
  c3_header_prepend_amended "Vault".data "some raw reply".data
    ["deposit".data] true (by decide) (by decide) (by decide) (by decide)
